import Mathlib

/-!
# Verification of the Ultrawide Window Positioner core

Shallow embedding, in Lean 4, of the algorithmic core of the
`Ultrawide_Window_Positioner` repository:

* `lib/utils.py` — `clean_window_title` (title normalization);
* `lib/window_manager.py` — `WindowManager` (managed-window bookkeeping,
  captured-state capture/restore, `find_matching_windows`);
* `lib/config_manager.py` — `validate_and_repair_config`,
  `detect_default_config`;
* `main.py` — `compare_window_data` / `auto_reapply` (drift detection);
* `lib/layout.py` + `lib/constants.py` — `auto_position` (auto-layout
  geometry generator) and its preset tables.

Python strings are modelled as `List Char` (wrapped into `String` at the
interface), machine integers as `ℤ`/`ℕ`, `fractions.Fraction` values as `ℚ`,
and Python `int()` truncation as an explicit truncation-toward-zero on `ℚ`.
Win32 calls are modelled by explicit state passing over a `WMState` record
holding the manager's bookkeeping together with the OS-side window metrics;
OS calls on a valid handle succeed, and the code's behaviour on an invalid
handle (win32 raises, the surrounding `except` swallows) is reproduced by
the corresponding guards.
-/

namespace UWP

/-! ## Characters and low-level string helpers (`lib/utils.py`) -/

/-- Printable ASCII test: the regex class `[\x20-\x7E]` used by
`clean_window_title`'s first cleaning step. -/
def isPrintableAscii (c : Char) : Bool :=
  0x20 ≤ c.toNat && c.toNat ≤ 0x7E

/-- ASCII decimal digit (code points 48–57). -/
def isDigitC (c : Char) : Bool :=
  48 ≤ c.toNat && c.toNat ≤ 57

/-- ASCII lowercase letter (code points 97–122). -/
def isLowerC (c : Char) : Bool :=
  97 ≤ c.toNat && c.toNat ≤ 122

/-- ASCII uppercase letter (code points 65–90). -/
def isUpperC (c : Char) : Bool :=
  65 ≤ c.toNat && c.toNat ≤ 90

/-- ASCII letter (Python's word grouping in `str.title` uses consecutive
letters as words; all strings reaching it here are printable ASCII). -/
def isAlphaC (c : Char) : Bool :=
  isLowerC c || isUpperC c

/-- ASCII `str.lower` on one character (the titles normalized here are
filtered to printable ASCII before `lower()` is applied). -/
def lowerC (c : Char) : Char :=
  if isUpperC c then Char.ofNat (c.toNat + 32) else c

/-- ASCII `str.upper` on one character. -/
def upperC (c : Char) : Char :=
  if isLowerC c then Char.ofNat (c.toNat - 32) else c

/-- `re.sub(r'\s+', ' ', s)`: collapse runs of whitespace to a single space.
After the printable-ASCII filter the only whitespace character left is
`' '`, so collapsing space runs is exactly the regex's effect: of each run
of spaces only one survives. -/
def collapseSpaces : List Char → List Char
  | [] => []
  | [c] => [c]
  | a :: b :: rest =>
    if a = ' ' && b = ' ' then collapseSpaces (b :: rest)
    else a :: collapseSpaces (b :: rest)

/-- Drop trailing spaces (the right half of `str.strip`; only `' '` can
occur as whitespace at this point of the pipeline). -/
def dropTrailingSpaces (l : List Char) : List Char :=
  l.foldr (fun c acc => if c = ' ' && acc.isEmpty then [] else c :: acc) []

/-- `str.strip()` on a printable-ASCII string. -/
def stripSpaces (l : List Char) : List Char :=
  dropTrailingSpaces (l.dropWhile (· = ' '))

/-- Does the list start with the literal separator `" - "`? -/
def sepPrefix : List Char → Bool
  | ' ' :: '-' :: ' ' :: _ => true
  | _ => false

/-- `re.split(r' [-—–] ', s)` after the printable-ASCII filter: the em/en
dashes are non-ASCII and no longer occur, so the only separator is the
literal `" - "`; `re.split` removes every non-overlapping occurrence,
scanning left to right. -/
def splitSep : List Char → List (List Char)
  | ' ' :: '-' :: ' ' :: rest => [] :: splitSep rest
  | c :: rest =>
    match splitSep rest with
    | p :: ps => (c :: p) :: ps
    | [] => [[c]]
  | [] => [[]]

/-- `re.sub(r'\s+\d+%$', '', s)`: strip one trailing
whitespace-digits-percent suffix, if present (whitespace is `' '` here). -/
def stripPctSuffix (l : List Char) : List Char :=
  match l.reverse with
  | '%' :: rest =>
    let ds := rest.takeWhile isDigitC
    let rest2 := rest.dropWhile isDigitC
    let sp := rest2.takeWhile (· = ' ')
    if !ds.isEmpty && !sp.isEmpty then (rest2.dropWhile (· = ' ')).reverse
    else l
  | _ => l

/-- The character class removed by the sanitize step:
`re.sub(r'[<>:"/\\|?*\[\]]', '', s)`. -/
def isIllegalC (c : Char) : Bool :=
  c = '<' || c = '>' || c = ':' || c = '"' || c = '/' || c = '\\' ||
  c = '|' || c = '?' || c = '*' || c = '[' || c = ']'

/-- `str.title()` on a printable-ASCII string: a letter is uppercased when
the previous character is not a letter, lowercased otherwise (Python
defines words as maximal runs of letters). The `Bool` argument records
whether the previous character was a letter. -/
def titlecaseAux : Bool → List Char → List Char
  | _, [] => []
  | prevAlpha, c :: rest =>
    (if isAlphaC c then (if prevAlpha then lowerC c else upperC c) else c)
      :: titlecaseAux (isAlphaC c) rest

def titlecase (l : List Char) : List Char :=
  titlecaseAux false l

/-- The basic cleaning steps of `clean_window_title`: printable-ASCII
filter, whitespace collapsing, `strip().lower()`. -/
def basicClean (l : List Char) : List Char :=
  (stripSpaces (collapseSpaces (l.filter isPrintableAscii))).map lowerC

/-- The sanitize block of `clean_window_title`: keep the final `" - "`
segment, strip one trailing `" NN%"` suffix, remove filesystem-illegal
characters. -/
def sanitizeClean (l : List Char) : List Char :=
  (stripPctSuffix (stripSpaces ((splitSep l).getLastD []))).filter
    (fun c => !isIllegalC c)

/-- `lib/utils.py` `clean_window_title(title, sanitize, titlecase)`.
An empty title returns `""` (which the pipeline also produces), so the
`if not title` guard needs no separate case. -/
def clean_window_title (title : String) (sanitize : Bool := false)
    (titlecase_ : Bool := true) : String :=
  let t := basicClean title.data
  let t := if sanitize then sanitizeClean t else t
  if titlecase_ then ⟨titlecase t⟩ else ⟨t⟩

example : clean_window_title "Diablo IV  " true = "Diablo Iv" := by decide
example : clean_window_title "a 1% 2%" true = "A 1%" := by decide
example : clean_window_title "A 1%" true = "A" := by decide
example : clean_window_title "My App - Notes.txt - Editor" true = "Editor" := by decide
example : clean_window_title "a |-| b" true = "A - B" := by decide
example : clean_window_title "  ?  " true = "" := by decide
example : clean_window_title "x - y 50%" true = "Y" := by decide

/-! ## Properties of normalization (for the idempotence analysis)

A character is *tame* when it is neither a percent sign nor one of the
filesystem-illegal characters removed by the sanitize step.  On titles made
of tame characters the two suffix/char-removal substeps are inert, which is
what restores idempotence of the normalization. -/

def tameChar (c : Char) : Bool :=
  !(c = '%') && !isIllegalC c

/-- No two adjacent spaces (output shape of `collapseSpaces`). -/
def Collapsed (l : List Char) : Prop :=
  List.Chain' (fun a b => ¬(a = ' ' ∧ b = ' ')) l

instance : DecidablePred Collapsed := fun l =>
  inferInstanceAs (Decidable (List.Chain' _ l))

/-- Occurrence test for the `" - "` separator, mirroring `splitSep`'s
scanning. -/
def containsSep : List Char → Bool
  | [] => false
  | c :: rest => sepPrefix (c :: rest) || containsSep rest

section CleanLemmas

/-! ### collapseSpaces -/

theorem collapseSpaces_sublist : ∀ l : List Char, List.Sublist (collapseSpaces l) l
  | [] => by simp [collapseSpaces]
  | [c] => by simp [collapseSpaces]
  | a :: b :: rest => by
    rw [collapseSpaces]
    split
    · exact (collapseSpaces_sublist (b :: rest)).cons a
    · exact (collapseSpaces_sublist (b :: rest)).cons₂ a

theorem collapsed_collapseSpaces : ∀ l : List Char, Collapsed (collapseSpaces l)
  | [] => by simp [collapseSpaces, Collapsed]
  | [c] => by simp [collapseSpaces, Collapsed]
  | a :: b :: rest => by
    rw [collapseSpaces]
    split
    · exact collapsed_collapseSpaces (b :: rest)
    · rename_i h
      have ih := collapsed_collapseSpaces (b :: rest)
      rcases hc : collapseSpaces (b :: rest) with _ | ⟨c, cs⟩
      · exact List.chain'_singleton a
      · refine List.Chain'.cons ?_ (hc ▸ ih)
        rintro ⟨ha, hcsp⟩
        -- head of `collapseSpaces (b :: rest)` is `b` or comes later;
        -- show `b = ' '` leads to contradiction with the split guard
        have hb : c = b ∨ (b = ' ' ∧ c = ' ') := by
          clear ih h
          induction rest generalizing b with
          | nil => simp [collapseSpaces] at hc; exact Or.inl hc.1.symm
          | cons d ds ih2 =>
            rw [collapseSpaces] at hc
            split at hc
            · rename_i hbd
              rcases ih2 d hc with h1 | h1
              · simp only [Bool.and_eq_true, decide_eq_true_eq] at hbd
                exact Or.inr ⟨hbd.1, h1 ▸ hbd.2⟩
              · simp only [Bool.and_eq_true, decide_eq_true_eq] at hbd
                exact Or.inr ⟨hbd.1, h1.2⟩
            · rw [List.cons.injEq] at hc
              exact Or.inl hc.1.symm
        rcases hb with rfl | ⟨hb, _⟩
        · simp [ha, hcsp] at h
        · simp [ha, hb] at h

theorem collapseSpaces_eq_self : ∀ {l : List Char}, Collapsed l → collapseSpaces l = l
  | [], _ => rfl
  | [c], _ => rfl
  | a :: b :: rest, h => by
    rw [collapseSpaces]
    have h1 := List.chain'_cons.mp h
    rw [if_neg (by simpa using h1.1), collapseSpaces_eq_self h1.2]

/-! ### stripSpaces -/

theorem dropTrailingSpaces_cons (c : Char) (rest : List Char) :
    dropTrailingSpaces (c :: rest) =
      if c = ' ' && (dropTrailingSpaces rest).isEmpty then []
      else c :: dropTrailingSpaces rest := rfl

theorem dropTrailingSpaces_pref (l : List Char) : dropTrailingSpaces l <+: l := by
  induction l with
  | nil => simp [dropTrailingSpaces]
  | cons c rest ih =>
    rw [dropTrailingSpaces_cons]
    split
    · exact ⟨c :: rest, rfl⟩
    · obtain ⟨t, ht⟩ := ih
      exact ⟨t, by simp [ht]⟩

theorem dropTrailingSpaces_idem (l : List Char) :
    dropTrailingSpaces (dropTrailingSpaces l) = dropTrailingSpaces l := by
  induction l with
  | nil => rfl
  | cons c rest ih =>
    rw [dropTrailingSpaces_cons]
    split
    · rfl
    · rename_i hguard
      rw [dropTrailingSpaces_cons, ih]
      rw [if_neg hguard]

theorem stripSpaces_infx (l : List Char) : stripSpaces l <:+: l :=
  (dropTrailingSpaces_pref _).isInfix.trans (List.dropWhile_suffix _).isInfix

theorem stripSpaces_idem (l : List Char) :
    stripSpaces (stripSpaces l) = stripSpaces l := by
  unfold stripSpaces
  rcases hm : dropTrailingSpaces (l.dropWhile (· = ' ')) with _ | ⟨d, ds⟩
  · simp [dropTrailingSpaces]
  · -- the head `d` is the head of `dropWhile (· = ' ') l`, hence not a space
    obtain ⟨t, ht⟩ := dropTrailingSpaces_pref (l.dropWhile (· = ' '))
    rw [hm] at ht
    have hhead := List.head?_dropWhile_not (fun x => decide (x = ' ')) l
    rw [show (l.dropWhile (· = ' ')).head? = some d by rw [← ht]; rfl] at hhead
    simp only [decide_eq_false_iff_not] at hhead
    rw [List.dropWhile_cons, if_neg (by simpa using hhead)]
    have := dropTrailingSpaces_idem (l.dropWhile (· = ' '))
    rw [hm] at this
    exact this

/-! ### Character facts -/

theorem char_toNat_ofNat_valid (n : ℕ) (h : n.isValidChar) :
    (Char.ofNat n).toNat = n := by
  simp [Char.ofNat, h, Char.toNat, Char.ofNatAux, UInt32.toNat, BitVec.toNat_ofNatLt]

theorem charEq_of_toNat (a b : Char) (h : a.toNat = b.toNat) : a = b := by
  have h2 : Char.ofNat a.toNat = Char.ofNat b.toNat := by rw [h]
  simpa [Char.ofNat_toNat] using h2

theorem toNat_lowerC_of_upper {c : Char} (h : isUpperC c = true) :
    (lowerC c).toNat = c.toNat + 32 := by
  have hb : 65 ≤ c.toNat ∧ c.toNat ≤ 90 := by simpa [isUpperC] using h
  rw [lowerC, if_pos h]
  exact char_toNat_ofNat_valid _ (Or.inl (by omega))

theorem lowerC_of_not_upper {c : Char} (h : isUpperC c = false) : lowerC c = c := by
  rw [lowerC, if_neg (by simp [h])]

theorem toNat_upperC_of_lower {c : Char} (h : isLowerC c = true) :
    (upperC c).toNat = c.toNat - 32 := by
  have hb : 97 ≤ c.toNat ∧ c.toNat ≤ 122 := by simpa [isLowerC] using h
  rw [upperC, if_pos h]
  exact char_toNat_ofNat_valid _ (Or.inl (by omega))

theorem isUpperC_lowerC (c : Char) : isUpperC (lowerC c) = false := by
  by_cases h : isUpperC c = true
  · have hb : 65 ≤ c.toNat ∧ c.toNat ≤ 90 := by simpa [isUpperC] using h
    have := toNat_lowerC_of_upper h
    simp only [isUpperC, Bool.and_eq_false_iff]
    right
    simp only [decide_eq_false_iff_not]
    omega
  · rw [lowerC_of_not_upper (by simpa using h)]
    simpa using h

theorem lowerC_space_iff (c : Char) : lowerC c = ' ' ↔ c = ' ' := by
  constructor
  · intro h
    by_cases hu : isUpperC c = true
    · have hb : 65 ≤ c.toNat ∧ c.toNat ≤ 90 := by simpa [isUpperC] using hu
      have h2 := toNat_lowerC_of_upper hu
      rw [h] at h2
      rw [show (' ').toNat = 32 from rfl] at h2
      omega
    · rwa [lowerC_of_not_upper (by simpa using hu)] at h
  · rintro rfl; rfl

theorem lowerC_upperC_of_lower {c : Char} (h : isLowerC c = true) :
    lowerC (upperC c) = c := by
  have hb : 97 ≤ c.toNat ∧ c.toNat ≤ 122 := by simpa [isLowerC] using h
  have h1 := toNat_upperC_of_lower h
  have hu : isUpperC (upperC c) = true := by
    simp only [isUpperC, Bool.and_eq_true, decide_eq_true_eq]
    omega
  refine charEq_of_toNat _ _ ?_
  rw [toNat_lowerC_of_upper hu, h1]
  omega

theorem isPrintable_lowerC (c : Char) :
    isPrintableAscii (lowerC c) = isPrintableAscii c := by
  by_cases h : isUpperC c = true
  · have hb : 65 ≤ c.toNat ∧ c.toNat ≤ 90 := by simpa [isUpperC] using h
    have h1 := toNat_lowerC_of_upper h
    simp only [isPrintableAscii, h1]
    have e1 : (32 ≤ c.toNat + 32 && c.toNat + 32 ≤ 126) = true := by
      simp only [Bool.and_eq_true, decide_eq_true_eq]; omega
    have e2 : (32 ≤ c.toNat && c.toNat ≤ 126) = true := by
      simp only [Bool.and_eq_true, decide_eq_true_eq]; omega
    rw [e1, e2]
  · rw [lowerC_of_not_upper (by simpa using h)]

theorem tameChar_of_range (d : Char) (h1 : 97 ≤ d.toNat) (h2 : d.toNat ≤ 122) :
    tameChar d = true := by
  have hlo : ∀ x : Char, x.toNat < 97 → d ≠ x := by
    rintro x hx rfl; omega
  have hhi : ∀ x : Char, 122 < x.toNat → d ≠ x := by
    rintro x hx rfl; omega
  simp only [tameChar, isIllegalC, Bool.and_eq_true, Bool.not_eq_true',
    Bool.or_eq_false_iff, decide_eq_false_iff_not, and_assoc]
  exact ⟨hlo _ (by decide), hlo _ (by decide), hlo _ (by decide), hlo _ (by decide),
    hlo _ (by decide), hlo _ (by decide), hlo _ (by decide), hhi _ (by decide),
    hlo _ (by decide), hlo _ (by decide), hlo _ (by decide), hlo _ (by decide)⟩

theorem tame_lowerC {c : Char} (h : tameChar c = true) : tameChar (lowerC c) = true := by
  by_cases hu : isUpperC c = true
  · have hb : 65 ≤ c.toNat ∧ c.toNat ≤ 90 := by simpa [isUpperC] using hu
    have h1 := toNat_lowerC_of_upper hu
    exact tameChar_of_range _ (by omega) (by omega)
  · rwa [lowerC_of_not_upper (by simpa using hu)]

theorem isAlphaC_of_not_upper_not_lower {c : Char} (h : isAlphaC c = false) :
    isUpperC c = false := by
  simp only [isAlphaC, Bool.or_eq_false_iff] at h
  exact h.2

/-! ### splitSep and containsSep -/

theorem containsSep_cons (c : Char) (rest : List Char) :
    containsSep (c :: rest) = (sepPrefix (c :: rest) || containsSep rest) := rfl

theorem splitSep_sep (rest : List Char) :
    splitSep (' ' :: '-' :: ' ' :: rest) = [] :: splitSep rest := rfl

theorem splitSep_ne_nil (l : List Char) : splitSep l ≠ [] := by
  rw [splitSep.eq_def]
  split
  · simp
  · split <;> simp
  · simp

theorem sepPrefix_false_of {c : Char} {rest : List Char}
    (h : ∀ r : List Char, c = ' ' → rest = '-' :: ' ' :: r → False) :
    sepPrefix (c :: rest) = false := by
  rw [sepPrefix.eq_def]
  split
  · rename_i heq
    rw [List.cons.injEq] at heq
    exact (h _ heq.1 heq.2).elim
  · rfl

theorem sepPrefix_true_shape {l : List Char} (h : sepPrefix l = true) :
    ∃ t, l = ' ' :: '-' :: ' ' :: t := by
  rw [sepPrefix.eq_def] at h
  split at h
  · rename_i t; exact ⟨t, rfl⟩
  · simp at h

theorem sepPrefix_append {l : List Char} (m : List Char) (h : sepPrefix l = true) :
    sepPrefix (l ++ m) = true := by
  obtain ⟨t, rfl⟩ := sepPrefix_true_shape h
  rfl

theorem splitSep_cons_not_sep (c : Char) (rest : List Char)
    (h : sepPrefix (c :: rest) = false) :
    splitSep (c :: rest) =
      match splitSep rest with
      | p :: ps => (c :: p) :: ps
      | [] => [[c]] := by
  rw [splitSep.eq_def]
  split
  · rename_i heq
    rw [show (c :: rest) = ' ' :: '-' :: ' ' :: _ from heq] at h
    simp [sepPrefix] at h
  · rename_i heq; cases heq; rfl
  · simp_all

theorem containsSep_append_right {a b : List Char}
    (h : containsSep (a ++ b) = false) : containsSep b = false := by
  induction a with
  | nil => exact h
  | cons c t ih =>
    rw [List.cons_append, containsSep_cons, Bool.or_eq_false_iff] at h
    exact ih h.2

theorem containsSep_append_left {a b : List Char}
    (h : containsSep (a ++ b) = false) : containsSep a = false := by
  induction a with
  | nil => rfl
  | cons c t ih =>
    rw [List.cons_append, containsSep_cons, Bool.or_eq_false_iff] at h
    rw [containsSep_cons, Bool.or_eq_false_iff]
    refine ⟨?_, ih h.2⟩
    by_contra hs
    rw [Bool.not_eq_false] at hs
    have := sepPrefix_append b hs
    rw [show (c :: t) ++ b = c :: (t ++ b) from rfl] at this
    rw [this] at h
    exact absurd h.1 (by simp)

theorem containsSep_infix {m l : List Char} (hm : m <:+: l)
    (h : containsSep l = false) : containsSep m = false := by
  obtain ⟨s, t, rfl⟩ := hm
  exact containsSep_append_right (containsSep_append_left h)

theorem splitSep_first_prefix : ∀ {l : List Char} {p : List Char}
    {ps : List (List Char)}, splitSep l = p :: ps → p <+: l := by
  intro l
  induction l using splitSep.induct with
  | case1 rest ih =>
    intro p ps h
    rw [splitSep_sep, List.cons.injEq] at h
    rw [← h.1]
    exact List.nil_prefix
  | case2 c rest hnot p0 ps0 hrest ih =>
    intro p ps h
    rw [splitSep_cons_not_sep c rest (sepPrefix_false_of hnot), hrest] at h
    rw [List.cons.injEq] at h
    rw [← h.1]
    obtain ⟨t, ht⟩ := ih hrest
    exact ⟨t, by rw [List.cons_append, ht]⟩
  | case3 c rest hnot hrest ih => exact absurd hrest (splitSep_ne_nil rest)
  | case4 =>
    intro p ps h
    rw [show splitSep [] = [[]] from rfl, List.cons.injEq] at h
    rw [← h.1]

theorem splitSep_parts_infix : ∀ {l : List Char} {p : List Char},
    p ∈ splitSep l → p <:+: l := by
  intro l
  induction l using splitSep.induct with
  | case1 rest ih =>
    intro p hp
    rw [splitSep_sep, List.mem_cons] at hp
    rcases hp with rfl | hp
    · exact List.nil_infix
    · exact (ih hp).trans
        ⟨[' ', '-', ' '], [], by simp⟩
  | case2 c rest hnot p0 ps0 hrest ih =>
    intro p hp
    rw [splitSep_cons_not_sep c rest (sepPrefix_false_of hnot), hrest,
      List.mem_cons] at hp
    rcases hp with rfl | hp
    · obtain ⟨t, ht⟩ := splitSep_first_prefix hrest
      exact ⟨[], t, by rw [List.nil_append, List.cons_append, ht]⟩
    · have : p ∈ splitSep rest := by rw [hrest]; exact List.mem_cons_of_mem _ hp
      exact (ih this).trans ⟨[c], [], by simp⟩
  | case3 c rest hnot hrest ih => exact absurd hrest (splitSep_ne_nil rest)
  | case4 =>
    intro p hp
    rw [show splitSep [] = [[]] from rfl, List.mem_singleton] at hp
    subst hp
    exact List.nil_infix

theorem splitSep_parts_noSep : ∀ {l : List Char} {p : List Char},
    p ∈ splitSep l → containsSep p = false := by
  intro l
  induction l using splitSep.induct with
  | case1 rest ih =>
    intro p hp
    rw [splitSep_sep, List.mem_cons] at hp
    rcases hp with rfl | hp
    · rfl
    · exact ih hp
  | case2 c rest hnot p0 ps0 hrest ih =>
    intro p hp
    rw [splitSep_cons_not_sep c rest (sepPrefix_false_of hnot), hrest,
      List.mem_cons] at hp
    rcases hp with rfl | hp
    · rw [containsSep_cons, Bool.or_eq_false_iff]
      constructor
      · by_contra hs
        rw [Bool.not_eq_false] at hs
        obtain ⟨x, hx⟩ := sepPrefix_true_shape hs
        rw [List.cons.injEq] at hx
        obtain ⟨t, ht⟩ := splitSep_first_prefix hrest
        rw [hx.2] at ht
        exact hnot (x ++ t) hx.1 (by rw [← ht]; rfl)
      · exact ih (by rw [hrest]; exact List.mem_cons_self _ _)
    · exact ih (by rw [hrest]; exact List.mem_cons_of_mem _ hp)
  | case3 c rest hnot hrest ih => exact absurd hrest (splitSep_ne_nil rest)
  | case4 =>
    intro p hp
    rw [show splitSep [] = [[]] from rfl, List.mem_singleton] at hp
    rw [hp]
    rfl

theorem splitSep_of_noSep : ∀ {l : List Char}, containsSep l = false →
    splitSep l = [l] := by
  intro l
  induction l using splitSep.induct with
  | case1 rest ih =>
    intro h
    rw [containsSep_cons] at h
    simp [sepPrefix] at h
  | case2 c rest hnot p0 ps0 hrest ih =>
    intro h
    rw [containsSep_cons, Bool.or_eq_false_iff] at h
    have h2 := ih h.2
    rw [h2] at hrest
    rw [List.cons.injEq] at hrest
    rw [splitSep_cons_not_sep c rest (sepPrefix_false_of hnot), h2]
  | case3 c rest hnot hrest ih => exact absurd hrest (splitSep_ne_nil rest)
  | case4 => intro h; rfl

theorem getLastD_mem_of_ne_nil {α : Type} (d : α) :
    ∀ (l : List α), l ≠ [] → l.getLastD d ∈ l
  | [], h => absurd rfl h
  | [a], _ => by simp
  | a :: b :: t, _ => by
    rw [List.getLastD_cons]
    exact List.mem_cons_of_mem a (getLastD_mem_of_ne_nil d (b :: t) (by simp))

/-! ### Commuting `map lowerC` with the basic-cleaning steps -/

theorem filter_printable_map_lowerC (l : List Char) :
    (l.map lowerC).filter isPrintableAscii =
      (l.filter isPrintableAscii).map lowerC := by
  induction l with
  | nil => rfl
  | cons c t ih =>
    rw [List.map_cons, List.filter_cons, List.filter_cons, isPrintable_lowerC]
    by_cases h : isPrintableAscii c = true
    · rw [if_pos (by simp [h]), if_pos (by simp [h]), List.map_cons, ih]
    · rw [if_neg (by simpa using h), if_neg (by simpa using h), ih]

theorem collapse_map_lowerC : ∀ l : List Char,
    collapseSpaces (l.map lowerC) = (collapseSpaces l).map lowerC
  | [] => rfl
  | [c] => rfl
  | a :: b :: rest => by
    rw [List.map_cons, List.map_cons, collapseSpaces, collapseSpaces]
    have hg : ((lowerC a = ' ') ∧ (lowerC b = ' ')) ↔ ((a = ' ') ∧ (b = ' ')) := by
      rw [lowerC_space_iff, lowerC_space_iff]
    by_cases h : (a = ' ') ∧ (b = ' ')
    · rw [if_pos (by simpa using hg.mpr h), if_pos (by simpa using h),
        ← List.map_cons lowerC b rest]
      exact collapse_map_lowerC (b :: rest)
    · rw [if_neg (by simpa using fun hx => h (hg.mp hx)), if_neg (by simpa using h),
        ← List.map_cons lowerC b rest, collapse_map_lowerC (b :: rest), List.map_cons]

theorem dropWhile_space_map_lowerC (l : List Char) :
    (l.map lowerC).dropWhile (· = ' ') = (l.dropWhile (· = ' ')).map lowerC := by
  induction l with
  | nil => rfl
  | cons c t ih =>
    rw [List.map_cons, List.dropWhile_cons, List.dropWhile_cons]
    by_cases h : c = ' '
    · rw [if_pos (by simp [lowerC_space_iff, h]), if_pos (by simp [h]), ih]
    · rw [if_neg (by simp [lowerC_space_iff, h]), if_neg (by simp [h]), List.map_cons]

theorem dropTrailing_map_lowerC (l : List Char) :
    dropTrailingSpaces (l.map lowerC) = (dropTrailingSpaces l).map lowerC := by
  induction l with
  | nil => rfl
  | cons c t ih =>
    rw [List.map_cons, dropTrailingSpaces_cons, dropTrailingSpaces_cons, ih]
    have he : ((dropTrailingSpaces t).map lowerC).isEmpty = (dropTrailingSpaces t).isEmpty := by
      rcases dropTrailingSpaces t with _ | _ <;> rfl
    rw [he]
    by_cases h : c = ' '
    · subst h
      rw [show lowerC ' ' = ' ' from rfl]
      by_cases h2 : (dropTrailingSpaces t).isEmpty = true
      · rw [h2]; rfl
      · rw [Bool.not_eq_true] at h2
        rw [h2]
        simp [show lowerC ' ' = ' ' from rfl]
    · rw [if_neg (by simp [lowerC_space_iff, h]), if_neg (by simp [h]), List.map_cons]

theorem strip_map_lowerC (l : List Char) :
    stripSpaces (l.map lowerC) = (stripSpaces l).map lowerC := by
  unfold stripSpaces
  rw [dropWhile_space_map_lowerC, dropTrailing_map_lowerC]

/-! ### Title-casing is undone by lowercasing -/

theorem map_lowerC_titlecaseAux : ∀ (b : Bool) (l : List Char),
    (∀ c ∈ l, isUpperC c = false) → (titlecaseAux b l).map lowerC = l := by
  intro b l
  induction l generalizing b with
  | nil => intro _; rfl
  | cons c rest ih =>
    intro h
    have hc := h c (List.mem_cons_self _ _)
    have hrest : ∀ x ∈ rest, isUpperC x = false :=
      fun x hx => h x (List.mem_cons_of_mem _ hx)
    rw [titlecaseAux, List.map_cons, ih _ hrest]
    congr 1
    by_cases ha : isAlphaC c = true
    · rw [if_pos ha]
      have hl : isLowerC c = true := by
        simp only [isAlphaC, Bool.or_eq_true] at ha
        rcases ha with ha | ha
        · exact ha
        · rw [hc] at ha; exact absurd ha (by simp)
      cases b
      · simp only [Bool.false_eq_true, if_false]
        exact lowerC_upperC_of_lower hl
      · simp only [if_true]
        rw [lowerC_of_not_upper hc, lowerC_of_not_upper hc]
    · rw [if_neg (by simpa using ha)]
      exact lowerC_of_not_upper hc

theorem map_lowerC_titlecase (l : List Char)
    (h : ∀ c ∈ l, isUpperC c = false) : (titlecase l).map lowerC = l := by
  unfold titlecase
  exact map_lowerC_titlecaseAux false l h

/-! ### Inert sanitize substeps on tame strings -/

theorem stripPctSuffix_of_noPct {l : List Char} (h : ∀ c ∈ l, c ≠ '%') :
    stripPctSuffix l = l := by
  unfold stripPctSuffix
  split
  · rename_i rest heq
    have : '%' ∈ l := by
      rw [← List.mem_reverse, heq]
      exact List.mem_cons_self _ _
    exact absurd rfl (h _ this)
  · rfl

theorem collapsed_map_lowerC {l : List Char} (h : Collapsed l) :
    Collapsed (l.map lowerC) := by
  rw [Collapsed, List.chain'_map]
  refine h.imp ?_
  intro a b hab ⟨ha, hb⟩
  exact hab ⟨(lowerC_space_iff a).mp ha, (lowerC_space_iff b).mp hb⟩

/-! ### The normalization fixes its own sanitized output -/

theorem clean_fixpoint (z : List Char)
    (hprint : ∀ c ∈ z, isPrintableAscii c = true)
    (hcol : Collapsed z)
    (hstrip : stripSpaces z = z)
    (hup : ∀ c ∈ z, isUpperC c = false)
    (hsep : containsSep z = false)
    (htame : ∀ c ∈ z, tameChar c = true) :
    clean_window_title ⟨titlecase z⟩ true true = (⟨titlecase z⟩ : String) := by
  have hbasic : basicClean (titlecase z) = z := by
    unfold basicClean
    rw [← strip_map_lowerC, ← collapse_map_lowerC, ← filter_printable_map_lowerC,
      map_lowerC_titlecase z hup, List.filter_eq_self.mpr hprint,
      collapseSpaces_eq_self hcol, hstrip]
  have hsan : sanitizeClean z = z := by
    unfold sanitizeClean
    rw [splitSep_of_noSep hsep]
    rw [show ([z].getLastD []) = z from rfl, hstrip]
    rw [stripPctSuffix_of_noPct (fun c hc heq => by
      have := htame c hc
      rw [heq] at this
      exact absurd this (by decide))]
    refine List.filter_eq_self.mpr ?_
    intro c hc
    have := htame c hc
    simp only [tameChar, Bool.and_eq_true] at this
    simp [this.2]
  show (⟨titlecase (sanitizeClean (basicClean (titlecase z)))⟩ : String) = ⟨titlecase z⟩
  rw [hbasic, hsan]

/-- Every character of the sanitized normalization output comes from the
basic-cleaning output, which carries printability, lowercase-ness and
tameness down from the raw input. -/
theorem sanitize_chain_props (x : List Char) (htame : ∀ c ∈ x, tameChar c = true) :
    let z0 := basicClean x
    let z := stripSpaces ((splitSep z0).getLastD [])
    sanitizeClean z0 = z ∧
    (∀ c ∈ z, isPrintableAscii c = true) ∧
    Collapsed z ∧
    stripSpaces z = z ∧
    (∀ c ∈ z, isUpperC c = false) ∧
    containsSep z = false ∧
    (∀ c ∈ z, tameChar c = true) := by
  intro z0 z
  -- membership transport into the pre-lowercasing stage of z0
  have hmem0 : ∀ c ∈ z0, ∃ d, d ∈ x ∧ c = lowerC d := by
    intro c hc
    obtain ⟨d, hd, rfl⟩ := List.mem_map.mp hc
    have : d ∈ x.filter isPrintableAscii :=
      (collapseSpaces_sublist _).subset
        ((stripSpaces_infx _).sublist.subset hd)
    exact ⟨d, (List.mem_filter.mp this).1, rfl⟩
  have hprint0 : ∀ c ∈ z0, isPrintableAscii c = true := by
    intro c hc
    obtain ⟨d, hd, rfl⟩ := List.mem_map.mp hc
    have : d ∈ x.filter isPrintableAscii :=
      (collapseSpaces_sublist _).subset
        ((stripSpaces_infx _).sublist.subset hd)
    rw [isPrintable_lowerC]
    exact (List.mem_filter.mp this).2
  have hup0 : ∀ c ∈ z0, isUpperC c = false := by
    intro c hc
    obtain ⟨d, hd, rfl⟩ := List.mem_map.mp hc
    exact isUpperC_lowerC d
  have htame0 : ∀ c ∈ z0, tameChar c = true := by
    intro c hc
    obtain ⟨d, hd, rfl⟩ := hmem0 c hc
    exact tame_lowerC (htame d hd)
  have hcol0 : Collapsed z0 :=
    collapsed_map_lowerC
      ( List.Chain'.infix (collapsed_collapseSpaces _) (stripSpaces_infx _))
  -- the last part of the split and its strip
  have hpart_mem : (splitSep z0).getLastD [] ∈ splitSep z0 :=
    getLastD_mem_of_ne_nil [] _ (splitSep_ne_nil z0)
  have hpart_infix : (splitSep z0).getLastD [] <:+: z0 :=
    splitSep_parts_infix hpart_mem
  have hz_infix : z <:+: z0 :=
    (stripSpaces_infx _).trans hpart_infix
  have hz_sub : ∀ c ∈ z, c ∈ z0 := fun c hc => hz_infix.sublist.subset hc
  have hznosep : containsSep z = false :=
    containsSep_infix (stripSpaces_infx _) (splitSep_parts_noSep hpart_mem)
  have hzpct : ∀ c ∈ z, c ≠ '%' := by
    intro c hc heq
    have := htame0 c (hz_sub c hc)
    rw [heq] at this
    exact absurd this (by decide)
  have hztame : ∀ c ∈ z, tameChar c = true := fun c hc => htame0 c (hz_sub c hc)
  refine ⟨?_, fun c hc => hprint0 c (hz_sub c hc), List.Chain'.infix hcol0 hz_infix,
    stripSpaces_idem _, fun c hc => hup0 c (hz_sub c hc), hznosep, hztame⟩
  -- sanitizeClean z0 = z : the percent-strip and illegal-char filter are inert
  unfold sanitizeClean
  rw [stripPctSuffix_of_noPct hzpct]
  refine List.filter_eq_self.mpr ?_
  intro c hc
  have := hztame c hc
  simp only [tameChar, Bool.and_eq_true] at this
  simp [this.2]
end CleanLemmas

/-! ## Claim C3: idempotence of title normalization -/

/-- C3 (counterexample): `clean_window_title` with `sanitize=True` is *not*
idempotent.  The title `"a 1% 2%"` normalizes to `"A 1%"`, whose own
normalization strips the remaining percent suffix and yields `"A"`:
the regex `\s+\d+%$` removes only one suffix per pass. -/
theorem C3_counterexample :
    clean_window_title (clean_window_title "a 1% 2%" true) true ≠
      clean_window_title "a 1% 2%" true ∧
    clean_window_title "a 1% 2%" true = "A 1%" ∧
    clean_window_title (clean_window_title "a 1% 2%" true) true = "A" := by
  refine ⟨?_, by decide, by decide⟩
  decide

/-- C3 (amended): `clean_window_title` with `sanitize=True` is idempotent on
every title that contains neither a percent sign nor any of the
filesystem-illegal characters removed by the sanitize step
(`<>:"/\\|?*[]`).  On such input the percent-suffix strip and the
character removal are inert in every pass, so a second normalization
reproduces the first. -/
theorem C3_idempotent_on_tame (s : String)
    (h : ∀ c ∈ s.data, tameChar c = true) :
    clean_window_title (clean_window_title s true) true =
      clean_window_title s true := by
  obtain ⟨hsan, hprint, hcol, hstrip, hup, hsep, htame⟩ :=
    sanitize_chain_props s.data h
  have hclean : clean_window_title s true =
      ⟨titlecase (stripSpaces ((splitSep (basicClean s.data)).getLastD []))⟩ := by
    show (⟨titlecase (sanitizeClean (basicClean s.data))⟩ : String) = _
    rw [hsan]
  rw [hclean]
  exact clean_fixpoint _ hprint hcol hstrip hup hsep htame

/-- Witness for C3 (amended) at the concrete title `"Diablo IV  "`. -/
theorem C3_idempotent_on_tame_witness :
    (∀ c ∈ ("Diablo IV  ").data, tameChar c = true) ∧
    clean_window_title (clean_window_title "Diablo IV  " true) true =
      clean_window_title "Diablo IV  " true :=
  ⟨by decide, C3_idempotent_on_tame "Diablo IV  " (by decide)⟩

/-! ## Claim C2: config-section to live-window matching
(`WindowManager.find_matching_windows`, `lib/window_manager.py`) -/

/-- Python `a in b` on strings: substring containment. -/
def pyInStr (needle haystack : String) : Bool :=
  decide (needle.data <:+: haystack.data)

/-- The per-section search loop of `find_matching_windows`: the first live
title that is non-empty and whose normalized form contains the normalized
section as a substring. -/
def sectionFind (titles : List String) (sec : String) : Option String :=
  titles.find? fun t =>
    !(t == "") && pyInStr (clean_window_title sec true) (clean_window_title t true)

/-- `WindowManager.find_matching_windows`: resolve every config section to a
live window title (standing in for the window handle looked up by title) and
collect the unresolved sections, both in section order. -/
def find_matching_windows (sections titles : List String) :
    List (String × String) × List String :=
  (sections.filterMap fun sec => (sectionFind titles sec).map fun t => (sec, t),
   sections.filter fun sec => (sectionFind titles sec).isNone)

/-- Modelled from the spec: the claimed matching rule — exact equality of
the normalized strings, or a prefix match anchored at the start whose end
falls on a word boundary (the next character is not a regex word character)
or at end-of-string. -/
def specBoundaryMatch (sec t : String) : Bool :=
  let sc := clean_window_title sec true
  let tc := clean_window_title t true
  sc == tc ||
    (decide (sc.data <+: tc.data) &&
      match tc.data.drop sc.data.length with
      | [] => true
      | c :: _ => !(isAlphaC c || isDigitC c || c = '_'))

/-- C2 (counterexample): the matcher uses *substring* containment, not the
claimed boundary-anchored prefix rule: section `"diablo"` is resolved to the
live title `"Diablodeluxe"`, which the claimed rule rejects (the prefix ends
inside a word). -/
theorem C2_counterexample :
    (find_matching_windows ["diablo"] ["Diablodeluxe"]).1 =
      [("diablo", "Diablodeluxe")] ∧
    specBoundaryMatch "diablo" "Diablodeluxe" = false ∧
    specBoundaryMatch "diablo" "Diablo IV" = true := by
  refine ⟨by decide, by decide, by decide⟩

/-- C2 (amended): the matcher resolves a config section to a live window
exactly when the normalized section occurs as a substring of the normalized
live title (first such non-empty title, in enumeration order); in
particular `"diablo"` matches both `"Diablo IV"` and `"Diablodeluxe"`.
Sections with no such title are reported missing. -/
theorem C2_substring_matching :
    (∀ titles sec, (sectionFind titles sec).isSome ↔
      ∃ t ∈ titles, t ≠ "" ∧
        (clean_window_title sec true).data <:+: (clean_window_title t true).data) ∧
    (∀ sections titles sec t, (sec, t) ∈ (find_matching_windows sections titles).1 ↔
      sec ∈ sections ∧ sectionFind titles sec = some t) ∧
    (∀ sections titles sec, sec ∈ (find_matching_windows sections titles).2 ↔
      sec ∈ sections ∧ sectionFind titles sec = none) ∧
    (find_matching_windows ["diablo"] ["Diablo IV"]).1 = [("diablo", "Diablo IV")] ∧
    (find_matching_windows ["diablo"] ["Diablodeluxe"]).1 =
      [("diablo", "Diablodeluxe")] := by
  refine ⟨?_, ?_, ?_, by decide, by decide⟩
  · intro titles sec
    rw [sectionFind, List.find?_isSome]
    constructor
    · rintro ⟨t, ht, hp⟩
      simp only [Bool.and_eq_true, Bool.not_eq_true', beq_eq_false_iff_ne,
        pyInStr, decide_eq_true_eq] at hp
      exact ⟨t, ht, hp.1, hp.2⟩
    · rintro ⟨t, ht, hne, hinf⟩
      refine ⟨t, ht, ?_⟩
      simp only [Bool.and_eq_true, Bool.not_eq_true', beq_eq_false_iff_ne,
        pyInStr, decide_eq_true_eq]
      exact ⟨hne, hinf⟩
  · intro sections titles sec t
    rw [find_matching_windows]
    simp only [List.mem_filterMap, Option.map_eq_some']
    constructor
    · rintro ⟨a, ha, t2, hfind, heq⟩
      rw [Prod.mk.injEq] at heq
      obtain ⟨rfl, rfl⟩ := heq
      exact ⟨ha, hfind⟩
    · rintro ⟨ha, hfind⟩
      exact ⟨sec, ha, t, hfind, rfl⟩
  · intro sections titles sec
    rw [find_matching_windows]
    simp [List.mem_filter, Option.isNone_iff_eq_none]

/-! ## Claim C6: config-field repair
(`ConfigManager.validate_and_repair_config`, `lib/config_manager.py`) -/

/-- One-or-more ASCII digits (regex `\d+` on the value strings). -/
def digitsOnly (l : List Char) : Bool :=
  !l.isEmpty && l.all isDigitC

/-- Regex `^-?\d+$`: an optional minus sign followed by digits. -/
def signedDigits (l : List Char) : Bool :=
  match l with
  | '-' :: ds => digitsOnly ds
  | ds => digitsOnly ds

/-- Split on a single separator character (every occurrence). -/
def splitOnChar (sep : Char) : List Char → List (List Char)
  | [] => [[]]
  | c :: rest =>
    if c = sep then [] :: splitOnChar sep rest
    else
      match splitOnChar sep rest with
      | p :: ps => (c :: p) :: ps
      | [] => [[c]]

/-- Regex `^-?\d+,-?\d+$` from the `position` branch. -/
def posPattern (l : List Char) : Bool :=
  match splitOnChar ',' l with
  | [a, b] => signedDigits a && signedDigits b
  | _ => false

/-- Regex `^\d+,\d+$` from the `size` branch. -/
def sizePattern (l : List Char) : Bool :=
  match splitOnChar ',' l with
  | [a, b] => digitsOnly a && digitsOnly b
  | _ => false

/-- Python `value.lower()` (the values compared here are ASCII). -/
def pyLower (s : String) : String :=
  ⟨s.data.map lowerC⟩

def repair_position (v : String) : String :=
  if posPattern v.data then v else "0,0"

def repair_size (v : String) : String :=
  if sizePattern v.data then v else "100,100"

def repair_always_on_top (v : String) : String :=
  if pyLower v = "true" ∨ pyLower v = "false" then pyLower v else "false"

def repair_titlebar (v : String) : String :=
  if pyLower v = "true" ∨ pyLower v = "false" then pyLower v else "true"

/-- Python `value.strip()` on the remaining keys (ASCII whitespace is a
single space here after config parsing). -/
def pyStripVal (s : String) : String :=
  ⟨stripSpaces s.data⟩

/-- The per-section loop body of `validate_and_repair_config`: known keys
are repaired, other keys are kept (stripped) only when non-blank. -/
def validate_and_repair_section (items : List (String × String)) :
    List (String × String) :=
  items.filterMap fun kv =>
    if kv.1 = "position" then some (kv.1, repair_position kv.2)
    else if kv.1 = "size" then some (kv.1, repair_size kv.2)
    else if kv.1 = "always_on_top" then some (kv.1, repair_always_on_top kv.2)
    else if kv.1 = "titlebar" then some (kv.1, repair_titlebar kv.2)
    else if pyStripVal kv.2 = "" then none
    else some (kv.1, pyStripVal kv.2)

example : repair_position "abc" = "0,0" := by decide
example : repair_position "-12,5" = "-12,5" := by decide
example : repair_size "-1,5" = "100,100" := by decide
example : repair_always_on_top "TRUE" = "true" := by decide
example : validate_and_repair_section [("position", "abc"), ("note", "  ")] =
    [("position", "0,0")] := by decide

/-! ### Correctness of the comma split -/

theorem splitOnChar_cons (sep c : Char) (rest : List Char) :
    splitOnChar sep (c :: rest) =
      if c = sep then [] :: splitOnChar sep rest
      else
        match splitOnChar sep rest with
        | p :: ps => (c :: p) :: ps
        | [] => [[c]] := rfl

theorem splitOnChar_ne_nil (sep : Char) (l : List Char) :
    splitOnChar sep l ≠ [] := by
  cases l with
  | nil => simp [splitOnChar]
  | cons c rest =>
    rw [splitOnChar_cons]
    split
    · simp
    · split <;> simp

theorem splitOnChar_singleton (sep : Char) : ∀ {l x : List Char},
    splitOnChar sep l = [x] ↔ (l = x ∧ sep ∉ l) := by
  intro l
  induction l with
  | nil =>
    intro x
    rw [show splitOnChar sep ([] : List Char) = [[]] from rfl]
    constructor
    · intro h
      rw [List.cons.injEq] at h
      exact ⟨h.1, by simp⟩
    · rintro ⟨h, _⟩
      rw [← h]
  | cons c rest ih =>
    intro x
    rw [splitOnChar_cons]
    by_cases hc : c = sep
    · rw [if_pos hc]
      constructor
      · intro h
        rw [List.cons.injEq] at h
        exact absurd h.2 (splitOnChar_ne_nil sep rest)
      · rintro ⟨rfl, hmem⟩
        exact absurd (by rw [hc]; exact List.mem_cons_self _ _) hmem
    · rw [if_neg hc]
      rcases hrest : splitOnChar sep rest with _ | ⟨p, ps⟩
      · exact absurd hrest (splitOnChar_ne_nil sep rest)
      · constructor
        · intro h
          rw [List.cons.injEq] at h
          obtain ⟨rfl, hps⟩ := h
          have : splitOnChar sep rest = [p] := by rw [hrest, hps]
          obtain ⟨rfl, hmem⟩ := (ih (x := p)).mp this
          refine ⟨rfl, fun hm => ?_⟩
          rcases List.mem_cons.mp hm with h | h
          · exact hc h.symm
          · exact hmem h
        · rintro ⟨rfl, hmem⟩
          have hrm : sep ∉ rest := fun h => hmem (List.mem_cons_of_mem _ h)
          have := (ih (x := rest)).mpr ⟨rfl, hrm⟩
          rw [this] at hrest
          rw [List.cons.injEq] at hrest
          rw [← hrest.1, ← hrest.2]

theorem splitOnChar_pair (sep : Char) : ∀ {l a b : List Char},
    splitOnChar sep l = [a, b] ↔
      (l = a ++ sep :: b ∧ sep ∉ a ∧ sep ∉ b) := by
  intro l
  induction l with
  | nil =>
    intro a b
    rw [show splitOnChar sep ([] : List Char) = [[]] from rfl]
    constructor
    · intro h; simp at h
    · rintro ⟨h, _, _⟩
      exact absurd h.symm (by simp)
  | cons c rest ih =>
    intro a b
    rw [splitOnChar_cons]
    by_cases hc : c = sep
    · rw [if_pos hc]
      subst hc
      constructor
      · intro h
        rw [List.cons.injEq] at h
        obtain ⟨rfl, hrest⟩ := h
        obtain ⟨rfl, hmem⟩ := (splitOnChar_singleton c).mp hrest
        exact ⟨rfl, by simp, hmem⟩
      · rintro ⟨hl, hna, hnb⟩
        rcases a with _ | ⟨a0, at_⟩
        · rw [List.nil_append, List.cons.injEq] at hl
          rw [(splitOnChar_singleton c).mpr ⟨hl.2, by rw [hl.2]; exact hnb⟩]
        · rw [List.cons_append, List.cons.injEq] at hl
          exact absurd (by rw [hl.1]; exact List.mem_cons_self _ _) hna
    · rw [if_neg hc]
      rcases hrest : splitOnChar sep rest with _ | ⟨p, ps⟩
      · exact absurd hrest (splitOnChar_ne_nil sep rest)
      · constructor
        · intro h
          rw [List.cons.injEq] at h
          obtain ⟨rfl, hps⟩ := h
          have : splitOnChar sep rest = [p, b] := by rw [hrest, hps]
          obtain ⟨rfl, hnp, hnb⟩ := ih.mp this
          refine ⟨rfl, fun hm => ?_, hnb⟩
          rcases List.mem_cons.mp hm with h | h
          · exact hc h.symm
          · exact hnp h
        · rintro ⟨hl, hna, hnb⟩
          rcases a with _ | ⟨a0, at_⟩
          · rw [List.nil_append, List.cons.injEq] at hl
            exact absurd hl.1 hc
          · rw [List.cons_append, List.cons.injEq] at hl
            obtain ⟨rfl, hrest2⟩ := hl
            have hnat : sep ∉ at_ := fun h => hna (List.mem_cons_of_mem _ h)
            have := ih.mpr ⟨hrest2, hnat, hnb⟩
            rw [this] at hrest
            rw [List.cons.injEq] at hrest
            rw [← hrest.1, ← hrest.2]

/-! ### Semantic reading of the repair regexes -/

/-- "`x` with x a signed integer": optional minus sign, then digits. -/
def SignedIntChars (l : List Char) : Prop :=
  ∃ ds, (l = '-' :: ds ∨ l = ds) ∧ ds ≠ [] ∧ ∀ c ∈ ds, isDigitC c = true

/-- "`w` with w a non-negative integer": digits only. -/
def DigitChars (l : List Char) : Prop :=
  l ≠ [] ∧ ∀ c ∈ l, isDigitC c = true

theorem digitsOnly_iff {l : List Char} : digitsOnly l = true ↔ DigitChars l := by
  simp [digitsOnly, DigitChars, List.all_eq_true, List.isEmpty_iff]

theorem signedDigits_iff {l : List Char} :
    signedDigits l = true ↔ SignedIntChars l := by
  rcases l with _ | ⟨c, rest⟩
  · constructor
    · intro h; simp [signedDigits, digitsOnly] at h
    · rintro ⟨ds, hds, hne, _⟩
      rcases hds with h | h
      · exact absurd h (by simp)
      · exact absurd h.symm hne
  · by_cases hc : c = '-'
    · subst hc
      rw [show signedDigits ('-' :: rest) = digitsOnly rest from rfl, digitsOnly_iff]
      constructor
      · intro h
        exact ⟨rest, Or.inl rfl, h.1, h.2⟩
      · rintro ⟨ds, hds, hne, hdig⟩
        rcases hds with h | h
        · rw [List.cons.injEq] at h
          rw [h.2]
          exact ⟨hne, hdig⟩
        · have : isDigitC '-' = true := hdig '-' (by rw [← h]; exact List.mem_cons_self _ _)
          exact absurd this (by decide)
    · have hred : signedDigits (c :: rest) = digitsOnly (c :: rest) := by
        rw [signedDigits.eq_def]
        split
        · rename_i heq
          rw [List.cons.injEq] at heq
          exact absurd heq.1 hc
        · rfl
      rw [hred, digitsOnly_iff]
      constructor
      · intro h
        exact ⟨c :: rest, Or.inr rfl, h.1, h.2⟩
      · rintro ⟨ds, hds, hne, hdig⟩
        rcases hds with h | h
        · rw [List.cons.injEq] at h
          exact absurd h.1 hc
        · rw [h]
          exact ⟨by simp [← h], hdig⟩

theorem SignedIntChars.no_comma {l : List Char} (h : SignedIntChars l) :
    ',' ∉ l := by
  obtain ⟨ds, hds, _, hdig⟩ := h
  intro hmem
  have hds_comma : ',' ∈ ds → False := fun hm => by
    have := hdig ',' hm
    exact absurd this (by decide)
  rcases hds with h | h
  · rw [h] at hmem
    rcases List.mem_cons.mp hmem with h2 | h2
    · exact absurd h2 (by decide)
    · exact hds_comma h2
  · rw [h] at hmem
    exact hds_comma hmem

theorem DigitChars.comma_not_mem {l : List Char} (h : DigitChars l) : ',' ∉ l := by
  intro hmem
  have := h.2 ',' hmem
  exact absurd this (by decide)

theorem posPattern_iff {l : List Char} :
    posPattern l = true ↔
      ∃ a b, l = a ++ ',' :: b ∧ SignedIntChars a ∧ SignedIntChars b := by
  constructor
  · intro h
    unfold posPattern at h
    split at h
    · rename_i a b hsplit
      rw [Bool.and_eq_true, signedDigits_iff, signedDigits_iff] at h
      obtain ⟨hl, _, _⟩ := (splitOnChar_pair ',').mp hsplit
      exact ⟨a, b, hl, h.1, h.2⟩
    · exact absurd h (by simp)
  · rintro ⟨a, b, rfl, ha, hb⟩
    have hsplit := (splitOnChar_pair ',').mpr ⟨rfl, ha.no_comma, hb.no_comma⟩
    unfold posPattern
    rw [hsplit, Bool.and_eq_true, signedDigits_iff, signedDigits_iff]
    exact ⟨ha, hb⟩

theorem sizePattern_iff {l : List Char} :
    sizePattern l = true ↔
      ∃ a b, l = a ++ ',' :: b ∧ DigitChars a ∧ DigitChars b := by
  constructor
  · intro h
    unfold sizePattern at h
    split at h
    · rename_i a b hsplit
      rw [Bool.and_eq_true, digitsOnly_iff, digitsOnly_iff] at h
      obtain ⟨hl, _, _⟩ := (splitOnChar_pair ',').mp hsplit
      exact ⟨a, b, hl, h.1, h.2⟩
    · exact absurd h (by simp)
  · rintro ⟨a, b, rfl, ha, hb⟩
    have hsplit := (splitOnChar_pair ',').mpr ⟨rfl, ha.comma_not_mem, hb.comma_not_mem⟩
    unfold sizePattern
    rw [hsplit, Bool.and_eq_true, digitsOnly_iff, digitsOnly_iff]
    exact ⟨ha, hb⟩

/-- A stored `position` value of the claimed form `"x,y"`, signed ints. -/
def PosWellFormed (v : String) : Prop :=
  ∃ a b, v.data = a ++ ',' :: b ∧ SignedIntChars a ∧ SignedIntChars b

/-- A stored `size` value of the claimed form `"w,h"`, non-negative ints. -/
def SizeWellFormed (v : String) : Prop :=
  ∃ a b, v.data = a ++ ',' :: b ∧ DigitChars a ∧ DigitChars b

/-- A stored boolean of the (case-insensitive) form `true`/`false`. -/
def BoolWellFormed (v : String) : Prop :=
  pyLower v = "true" ∨ pyLower v = "false"

/-! ## Claim C6 theorems -/

/-- C6 (counterexample): the boolean `always_on_top` value `"True"` is
repaired to `"true"`: it is neither coerced to the claimed default
`"false"` nor passed through unchanged — booleans are recognized
case-insensitively and canonicalized to lowercase. -/
theorem C6_counterexample :
    repair_always_on_top "True" = "true" ∧
    repair_always_on_top "True" ≠ "false" ∧
    repair_always_on_top "True" ≠ "True" := by
  refine ⟨by decide, by decide, by decide⟩

/-- C6 (amended): for every stored config field value, repair coerces every
malformed field to its safe default instead of rejecting it: a position not
of the form `"x,y"` (signed integers) becomes `"0,0"`, a size not of the
form `"w,h"` (non-negative integers) becomes `"100,100"`, an
`always_on_top` that is not a case-insensitive boolean becomes `"false"`
and such a `titlebar` becomes `"true"`; well-formed positions and sizes
pass through unchanged, and well-formed booleans are canonicalized to
their lowercase form.  Every repaired field is well-formed. -/
theorem C6_repair_fields (v : String) :
    (PosWellFormed v → repair_position v = v) ∧
    (¬ PosWellFormed v → repair_position v = "0,0") ∧
    PosWellFormed (repair_position v) ∧
    (SizeWellFormed v → repair_size v = v) ∧
    (¬ SizeWellFormed v → repair_size v = "100,100") ∧
    SizeWellFormed (repair_size v) ∧
    (BoolWellFormed v → repair_always_on_top v = pyLower v) ∧
    (¬ BoolWellFormed v → repair_always_on_top v = "false") ∧
    (repair_always_on_top v = "true" ∨ repair_always_on_top v = "false") ∧
    (BoolWellFormed v → repair_titlebar v = pyLower v) ∧
    (¬ BoolWellFormed v → repair_titlebar v = "true") ∧
    (repair_titlebar v = "true" ∨ repair_titlebar v = "false") := by
  have hpos00 : PosWellFormed "0,0" := posPattern_iff.mp (by decide)
  have hsize100 : SizeWellFormed "100,100" := sizePattern_iff.mp (by decide)
  refine ⟨?_, ?_, ?_, ?_, ?_, ?_, ?_, ?_, ?_, ?_, ?_, ?_⟩
  · intro h
    rw [repair_position, if_pos (posPattern_iff.mpr h)]
  · intro h
    rw [repair_position, if_neg (fun hb => h (posPattern_iff.mp hb))]
  · rw [repair_position]
    split
    · rename_i hb; exact posPattern_iff.mp hb
    · exact hpos00
  · intro h
    rw [repair_size, if_pos (sizePattern_iff.mpr h)]
  · intro h
    rw [repair_size, if_neg (fun hb => h (sizePattern_iff.mp hb))]
  · rw [repair_size]
    split
    · rename_i hb; exact sizePattern_iff.mp hb
    · exact hsize100
  · intro h
    unfold BoolWellFormed at h
    rw [repair_always_on_top, if_pos h]
  · intro h
    unfold BoolWellFormed at h
    rw [repair_always_on_top, if_neg h]
  · rw [repair_always_on_top]
    split
    · rename_i hb; rcases hb with hb | hb <;> [exact Or.inl hb; exact Or.inr hb]
    · exact Or.inr rfl
  · intro h
    unfold BoolWellFormed at h
    rw [repair_titlebar, if_pos h]
  · intro h
    unfold BoolWellFormed at h
    rw [repair_titlebar, if_neg h]
  · rw [repair_titlebar]
    split
    · rename_i hb; rcases hb with hb | hb <;> [exact Or.inl hb; exact Or.inr hb]
    · exact Or.inl rfl

/-- Witness for C6 (amended): a malformed position `"abc"` is repaired to
`"0,0"` and a well-formed position `"-12,5"` passes through. -/
theorem C6_repair_fields_witness :
    repair_position "abc" = "0,0" ∧ repair_position "-12,5" = "-12,5" :=
  ⟨(C6_repair_fields "abc").2.1
      (fun h => by have := posPattern_iff.mpr h; exact absurd this (by decide)),
    (C6_repair_fields "-12,5").1 (posPattern_iff.mp (by decide))⟩

/-! ## Claim C7: default-config detection
(`ConfigManager.detect_default_config`, `lib/config_manager.py`) -/

/-- Pass-1 test for one config: some section marked `always_on_top` whose
normalized name occurs as a substring of some (normalized) live title. -/
def aotConfigMatch (cleanedTitles : List String)
    (sections : List (String × Bool)) : Bool :=
  sections.any fun sec =>
    sec.2 && cleanedTitles.any fun t => pyInStr (clean_window_title sec.1 true) t

/-- Pass-2 score for one config: the number of sections not marked
`always_on_top` whose raw name equals some normalized live title. -/
def countExactMatches (cleanedTitles : List String)
    (sections : List (String × Bool)) : ℕ :=
  (sections.filter fun sec => !sec.2 && decide (sec.1 ∈ cleanedTitles)).length

/-- The config-file loop of `detect_default_config`: an always-on-top match
returns that config's name immediately (`Sum.inl`); otherwise the running
best pass-2 score is threaded through (`Sum.inr`). -/
def detectLoop (cleanedTitles : List String) :
    List (String × List (String × Bool)) → Option String × ℕ →
      String ⊕ (Option String × ℕ)
  | [], acc => Sum.inr acc
  | cfg :: rest, acc =>
    if aotConfigMatch cleanedTitles cfg.2 then Sum.inl cfg.1
    else
      detectLoop cleanedTitles rest
        (if countExactMatches cleanedTitles cfg.2 > acc.2 then
          (some cfg.1, countExactMatches cleanedTitles cfg.2)
        else acc)

/-- `ConfigManager.detect_default_config`, over the config files (name and
parsed `always_on_top` flags per section, in listing order) and the live
window titles.  The final `if highest_matching_windows[0]:` is Python
truthiness, so an empty-string best falls through to the first config. -/
def detect_default_config
    (configs : List (String × List (String × Bool)))
    (titles : List String) : Option String :=
  let cleanedTitles := titles.map fun t => clean_window_title t true
  let fallback : Option String :=
    match configs with
    | [] => none
    | c :: _ => some c.1
  match detectLoop cleanedTitles configs (none, 0) with
  | Sum.inl name => some name
  | Sum.inr (some best, _) => if best = "" then fallback else some best
  | Sum.inr (none, _) => fallback

/-- If some config has a pass-1 (always-on-top) match, the loop returns the
first such config immediately, whatever score accumulator it carries. -/
theorem detectLoop_aot (cleanedTitles : List String) :
    ∀ (configs : List (String × List (String × Bool)))
      (cfg : String × List (String × Bool)) (acc : Option String × ℕ),
      configs.find? (fun c => aotConfigMatch cleanedTitles c.2) = some cfg →
      detectLoop cleanedTitles configs acc = Sum.inl cfg.1 := by
  intro configs
  induction configs with
  | nil => intro cfg acc h; simp at h
  | cons c rest ih =>
    intro cfg acc h
    rw [List.find?_cons] at h
    rw [detectLoop]
    by_cases ha : aotConfigMatch cleanedTitles c.2 = true
    · rw [ha] at h
      simp only [Option.some.injEq] at h
      rw [if_pos ha, h]
    · rw [Bool.not_eq_true] at ha
      rw [ha] at h
      rw [if_neg (by simp [ha])]
      exact ih cfg _ h

/-- With no pass-1 match and no positive pass-2 score anywhere, the loop
leaves the accumulator untouched. -/
theorem detectLoop_no_winner (cleanedTitles : List String) :
    ∀ (configs : List (String × List (String × Bool))),
      (∀ c ∈ configs, aotConfigMatch cleanedTitles c.2 = false) →
      (∀ c ∈ configs, countExactMatches cleanedTitles c.2 = 0) →
      detectLoop cleanedTitles configs (none, 0) = Sum.inr (none, 0) := by
  intro configs
  induction configs with
  | nil => intro _ _; rfl
  | cons c rest ih =>
    intro ha hc
    rw [detectLoop, if_neg (by simp [ha c (List.mem_cons_self _ _)])]
    rw [show countExactMatches cleanedTitles c.2 = 0 from
      hc c (List.mem_cons_self _ _)]
    rw [if_neg (by omega)]
    exact ih (fun x hx => ha x (List.mem_cons_of_mem _ hx))
      (fun x hx => hc x (List.mem_cons_of_mem _ hx))

/-- C7: if any config contains an always-on-top section whose normalized
name is a substring of some live window's normalized title, the selector
returns the first such config in listing order, regardless of all pass-2
match counts; with no pass-1 match and no pass-2 score it returns the first
config in listing order, and with no configs at all it returns `none`. -/
theorem C7_default_config_selection
    (configs : List (String × List (String × Bool))) (titles : List String) :
    (∀ cfg, configs.find?
        (fun c => aotConfigMatch (titles.map fun t => clean_window_title t true) c.2) =
          some cfg →
      detect_default_config configs titles = some cfg.1) ∧
    ((∀ c ∈ configs,
        aotConfigMatch (titles.map fun t => clean_window_title t true) c.2 = false) →
      (∀ c ∈ configs,
        countExactMatches (titles.map fun t => clean_window_title t true) c.2 = 0) →
      detect_default_config configs titles = (configs.head?.map Prod.fst)) ∧
    (configs = [] → detect_default_config configs titles = none) := by
  refine ⟨?_, ?_, ?_⟩
  · intro cfg h
    simp only [detect_default_config, detectLoop_aot _ configs cfg (none, 0) h]
  · intro ha hc
    simp only [detect_default_config, detectLoop_no_winner _ configs ha hc]
    rcases configs with _ | ⟨c, rest⟩ <;> rfl
  · rintro rfl
    rfl

/-- Witness for C7: an always-on-top anchored config beats a config with a
higher raw pass-2 match count. -/
theorem C7_default_config_selection_witness :
    detect_default_config
      [("Plain", [("Diablo Iv", false), ("Firefox", false)]),
       ("Anchored", [("diablo", true)])]
      ["Diablo IV", "Firefox"] = some "Anchored" :=
  (C7_default_config_selection _ _).1 ("Anchored", [("diablo", true)]) (by decide)

/-! ## The window manager (`WindowManager`, `lib/window_manager.py`)

State-passing embedding.  `os` is the OS-side metrics of every window
(win32 `GetWindowRect`/`GetWindowLong`), `valid` is `win32gui.IsWindow`.
Win32 calls on a valid handle succeed; on an invalid handle they raise,
which the code's `except` blocks swallow — each modelled branch mirrors
where the Python control flow actually lands in that case. -/

abbrev Hwnd := ℕ

structure Metrics where
  pos : ℤ × ℤ
  size : ℤ × ℤ
  style : ℕ
  exstyle : ℕ
deriving DecidableEq

def WS_CAPTION : ℕ := 0xC00000
def WS_BORDER : ℕ := 0x800000
def WS_THICKFRAME : ℕ := 0x40000
def WS_EX_TOPMOST : ℕ := 0x8

/-- `WS_CAPTION | WS_BORDER | WS_THICKFRAME`, the frame bits toggled by
`keep_titlebar` / `restore_window_frame`. -/
def frameBits : ℕ := WS_CAPTION ||| WS_BORDER ||| WS_THICKFRAME

/-- Clear the bits of `mask` in `x` (`x & ~mask`). -/
def clearBits (x mask : ℕ) : ℕ := x - (x &&& mask)

structure WMState where
  managed_windows : List Hwnd
  topmost_windows : List Hwnd
  window_states : List (Hwnd × Option Metrics)
  os : Hwnd → Metrics
  valid : Hwnd → Bool

/-- `self._window_states[h]` (None when the handle was invalid at capture,
matching `get_window_metrics` returning `None`). -/
def lookupState : List (Hwnd × Option Metrics) → Hwnd → Option (Option Metrics)
  | [], _ => none
  | (k, v) :: t, h => if k = h then some v else lookupState t h

/-- Python dict assignment `d[h] = v`. -/
def setKey : List (Hwnd × Option Metrics) → Hwnd → Option Metrics →
    List (Hwnd × Option Metrics)
  | [], k, v => [(k, v)]
  | (k2, v2) :: t, k, v =>
    if k2 = k then (k, v) :: t else (k2, v2) :: setKey t k v

/-- Python dict deletion `del d[h]` (guarded by membership in the code). -/
def eraseKey : List (Hwnd × Option Metrics) → Hwnd → List (Hwnd × Option Metrics)
  | [], _ => []
  | (k2, v2) :: t, k => if k2 = k then t else (k2, v2) :: eraseKey t k

/-- Overwrite the OS metrics of one window. -/
def osSet (s : WMState) (h : Hwnd) (m : Metrics) : WMState :=
  { s with os := fun h2 => if h2 = h then m else s.os h2 }

/-- `WindowManager.is_valid_window`. -/
def is_valid_window (s : WMState) (h : Hwnd) : Bool := s.valid h

/-- `WindowManager.get_window_metrics`: the metrics dict, or `None` when
`GetWindowRect` raises (invalid handle). -/
def get_window_metrics (s : WMState) (h : Hwnd) : Option Metrics :=
  if s.valid h then some (s.os h) else none

/-- `WindowManager.set_window_position` (`SetWindowPos` with `SWP_NOSIZE`:
moves, keeps the current size). -/
def set_window_position (s : WMState) (h : Hwnd) (x y : ℤ) : WMState :=
  if s.valid h then osSet s h { s.os h with pos := (x, y) } else s

/-- `WindowManager.set_window_size` (`SetWindowPos` with `SWP_NOMOVE`). -/
def set_window_size (s : WMState) (h : Hwnd) (w ht : ℤ) : WMState :=
  if s.valid h then osSet s h { s.os h with size := (w, ht) } else s

/-- `WindowManager.set_always_on_top`: pin/unpin in the topmost z-band
(the OS reflects it in the `WS_EX_TOPMOST` extended-style bit) and track
the handle in `topmost_windows`. -/
def set_always_on_top (s : WMState) (h : Hwnd) (enable : Bool) : WMState :=
  if s.valid h then
    let s1 := osSet s h { s.os h with
      exstyle := if enable then (s.os h).exstyle ||| WS_EX_TOPMOST
                 else clearBits (s.os h).exstyle WS_EX_TOPMOST }
    { s1 with topmost_windows :=
        if enable then
          (if h ∈ s1.topmost_windows then s1.topmost_windows
           else s1.topmost_windows ++ [h])
        else s1.topmost_windows.erase h }
  else s

/-- `WindowManager.restore_window_frame`: add the frame style bits back. -/
def restore_window_frame (s : WMState) (h : Hwnd) : WMState :=
  if s.valid h then
    osSet s h { s.os h with style := (s.os h).style ||| frameBits }
  else s

/-- `WindowManager.keep_titlebar(hwnd, restore)`: restore the frame, or
strip the caption/border/thickframe bits. -/
def keep_titlebar (s : WMState) (h : Hwnd) (restore : Bool) : WMState :=
  if restore then restore_window_frame s h
  else if s.valid h then
    osSet s h { s.os h with style := clearBits (s.os h).style frameBits }
  else s

/-- `WindowManager.add_managed_window`: on first management, append the
handle and capture its current metrics. -/
def add_managed_window (s : WMState) (h : Hwnd) : WMState :=
  if h ∈ s.managed_windows then s
  else
    { s with managed_windows := s.managed_windows ++ [h],
             window_states := setKey s.window_states h (get_window_metrics s h) }

/-- The restore block of `remove_managed_window`: put back position
(`set_window_position`), size (`set_window_size`), then the raw style and
extended-style words (`SetWindowLong`). -/
def restoreMetrics (s : WMState) (h : Hwnd) (m : Metrics) : WMState :=
  let s1 := set_window_position s h m.pos.1 m.pos.2
  let s2 := set_window_size s1 h m.size.1 m.size.2
  let s3 := osSet s2 h { s2.os h with style := m.style }
  osSet s3 h { s3.os h with exstyle := m.exstyle }

/-- `WindowManager.remove_managed_window`: restore the captured position,
size, style and extended style, then drop the capture and unmanage.  A
`None` capture makes the subscript raise (swallowed: nothing changes); an
invalid handle makes `SetWindowLong` raise after the two silent position/
size no-ops (swallowed: nothing changes). -/
def remove_managed_window (s : WMState) (h : Hwnd) : WMState :=
  if h ∈ s.managed_windows then
    match lookupState s.window_states h with
    | some (some m) =>
      if s.valid h then
        let s4 := restoreMetrics s h m
        { s4 with window_states := eraseKey s4.window_states h,
                  managed_windows := s4.managed_windows.erase h,
                  topmost_windows := s4.topmost_windows.erase h }
      else s
    | some none => s
    | none =>
      { s with managed_windows := s.managed_windows.erase h,
               topmost_windows := s.topmost_windows.erase h }
  else s

/-- A window configuration, with the fields `apply_window_config` reads
(`position`/`size` already parsed from their `"x,y"` strings). -/
structure WinConfig where
  position : ℤ × ℤ
  size : ℤ × ℤ
  always_on_top : Bool
  has_titlebar : Bool

/-- `WindowManager.apply_window_config`: on a valid handle and a non-empty
config, manage (capturing state first), then apply titlebar, position,
size and always-on-top in the fixed order (the `Diablo IV` override in the
code selects the same order as the default). The minimize/foreground calls
touch only z-order and minimized state, which the metrics do not carry. -/
def apply_window_config (s : WMState) (config : Option WinConfig) (h : Hwnd) :
    WMState :=
  if s.valid h then
    match config with
    | none => s
    | some cfg =>
      let s1 := add_managed_window s h
      let s2 := keep_titlebar s1 h cfg.has_titlebar
      let s3 := set_window_position s2 h cfg.position.1 cfg.position.2
      let s4 := set_window_size s3 h cfg.size.1 cfg.size.2
      set_always_on_top s4 h cfg.always_on_top
  else s

/-- One iteration of the `reset_all_windows` loop. -/
def resetOne (s : WMState) (h : Hwnd) : WMState :=
  remove_managed_window (restore_window_frame (set_always_on_top s h false) h) h

/-- `WindowManager.reset_all_windows`: iterate over a copy of the managed
list, clearing AOT, restoring the frame and unmanaging each handle. -/
def reset_all_windows (s : WMState) : WMState :=
  s.managed_windows.foldl resetOne s

/-- `WindowManager.__init__`: no managed windows, no captures. -/
def initialState (os : Hwnd → Metrics) (valid : Hwnd → Bool) : WMState :=
  ⟨[], [], [], os, valid⟩

/-- The captured-state/managed-list pairing: the capture map's keys are
exactly the managed list (in order), without duplicates. -/
def Inv (s : WMState) : Prop :=
  s.window_states.map Prod.fst = s.managed_windows ∧ s.managed_windows.Nodup

/-! ### Association-list facts -/

theorem lookupState_setKey_self (l : List (Hwnd × Option Metrics)) (k : Hwnd)
    (v : Option Metrics) : lookupState (setKey l k v) k = some v := by
  induction l with
  | nil => simp [setKey, lookupState]
  | cons kv t ih =>
    rw [setKey]
    by_cases h : kv.1 = k
    · rw [if_pos h, lookupState, if_pos rfl]
    · rw [if_neg h, lookupState, if_neg h, ih]

theorem map_fst_setKey_of_not_mem (l : List (Hwnd × Option Metrics)) (k : Hwnd)
    (v : Option Metrics) (h : k ∉ l.map Prod.fst) :
    (setKey l k v).map Prod.fst = l.map Prod.fst ++ [k] := by
  induction l with
  | nil => rfl
  | cons kv t ih =>
    rw [List.map_cons] at h
    rw [setKey]
    by_cases h2 : kv.1 = k
    · exact absurd (h2 ▸ List.mem_cons_self _ _) h
    · rw [if_neg h2, List.map_cons, List.map_cons,
        ih (fun hm => h (List.mem_cons_of_mem _ hm)), List.cons_append]

theorem map_fst_eraseKey (l : List (Hwnd × Option Metrics)) (k : Hwnd) :
    (eraseKey l k).map Prod.fst = (l.map Prod.fst).erase k := by
  induction l with
  | nil => rfl
  | cons kv t ih =>
    rw [eraseKey, List.map_cons, List.erase_cons]
    by_cases h : kv.1 = k
    · rw [if_pos h, if_pos (by simp [h])]
    · rw [if_neg h, if_neg (by simp [h]), List.map_cons, ih]

theorem lookupState_eraseKey_ne (l : List (Hwnd × Option Metrics))
    (k k2 : Hwnd) (h : k2 ≠ k) :
    lookupState (eraseKey l k) k2 = lookupState l k2 := by
  induction l with
  | nil => rfl
  | cons kv t ih =>
    rw [eraseKey]
    by_cases h2 : kv.1 = k
    · rw [if_pos h2, lookupState, if_neg (by rw [h2]; exact fun hx => h hx.symm)]
    · rw [if_neg h2, lookupState, lookupState]
      by_cases h3 : kv.1 = k2
      · rw [if_pos h3, if_pos h3]
      · rw [if_neg h3, if_neg h3, ih]

theorem lookupState_isSome_iff (l : List (Hwnd × Option Metrics)) (k : Hwnd) :
    (lookupState l k).isSome = true ↔ k ∈ l.map Prod.fst := by
  induction l with
  | nil => simp [lookupState]
  | cons kv t ih =>
    rw [lookupState, List.map_cons]
    by_cases h : kv.1 = k
    · rw [if_pos h]
      simp [h]
    · rw [if_neg h, ih, List.mem_cons]
      constructor
      · exact Or.inr
      · rintro (h2 | h2)
        · exact absurd h2.symm h
        · exact h2

theorem lookupState_eraseKey_self (l : List (Hwnd × Option Metrics)) (k : Hwnd)
    (hnd : (l.map Prod.fst).Nodup) : lookupState (eraseKey l k) k = none := by
  induction l with
  | nil => rfl
  | cons kv t ih =>
    rw [List.map_cons, List.nodup_cons] at hnd
    rw [eraseKey]
    by_cases h : kv.1 = k
    · rw [if_pos h]
      rcases hl : lookupState t k with _ | v
      · rfl
      · have : k ∈ t.map Prod.fst :=
          (lookupState_isSome_iff t k).mp (by rw [hl]; rfl)
        exact absurd (h ▸ this) hnd.1
    · rw [if_neg h, lookupState, if_neg h, ih hnd.2]

/-! ### Bookkeeping is untouched by the pure OS mutations -/

theorem set_window_position_book (s : WMState) (h : Hwnd) (x y : ℤ) :
    (set_window_position s h x y).managed_windows = s.managed_windows ∧
    (set_window_position s h x y).window_states = s.window_states ∧
    (set_window_position s h x y).topmost_windows = s.topmost_windows ∧
    (set_window_position s h x y).valid = s.valid := by
  unfold set_window_position osSet
  split <;> exact ⟨rfl, rfl, rfl, rfl⟩

theorem set_window_size_book (s : WMState) (h : Hwnd) (w ht : ℤ) :
    (set_window_size s h w ht).managed_windows = s.managed_windows ∧
    (set_window_size s h w ht).window_states = s.window_states ∧
    (set_window_size s h w ht).topmost_windows = s.topmost_windows ∧
    (set_window_size s h w ht).valid = s.valid := by
  unfold set_window_size osSet
  split <;> exact ⟨rfl, rfl, rfl, rfl⟩

theorem set_always_on_top_book (s : WMState) (h : Hwnd) (b : Bool) :
    (set_always_on_top s h b).managed_windows = s.managed_windows ∧
    (set_always_on_top s h b).window_states = s.window_states ∧
    (set_always_on_top s h b).valid = s.valid := by
  unfold set_always_on_top osSet
  split <;> exact ⟨rfl, rfl, rfl⟩

theorem restore_window_frame_book (s : WMState) (h : Hwnd) :
    (restore_window_frame s h).managed_windows = s.managed_windows ∧
    (restore_window_frame s h).window_states = s.window_states ∧
    (restore_window_frame s h).topmost_windows = s.topmost_windows ∧
    (restore_window_frame s h).valid = s.valid := by
  unfold restore_window_frame osSet
  split <;> exact ⟨rfl, rfl, rfl, rfl⟩

theorem keep_titlebar_book (s : WMState) (h : Hwnd) (b : Bool) :
    (keep_titlebar s h b).managed_windows = s.managed_windows ∧
    (keep_titlebar s h b).window_states = s.window_states ∧
    (keep_titlebar s h b).topmost_windows = s.topmost_windows ∧
    (keep_titlebar s h b).valid = s.valid := by
  unfold keep_titlebar
  split
  · exact restore_window_frame_book s h
  · unfold osSet
    split <;> exact ⟨rfl, rfl, rfl, rfl⟩

theorem os_set_window_position_ne (s : WMState) (h h2 : Hwnd) (x y : ℤ)
    (hne : h2 ≠ h) : (set_window_position s h x y).os h2 = s.os h2 := by
  unfold set_window_position osSet
  split
  · simp [hne]
  · rfl

theorem os_set_window_size_ne (s : WMState) (h h2 : Hwnd) (w ht : ℤ)
    (hne : h2 ≠ h) : (set_window_size s h w ht).os h2 = s.os h2 := by
  unfold set_window_size osSet
  split
  · simp [hne]
  · rfl

theorem os_set_always_on_top_ne (s : WMState) (h h2 : Hwnd) (b : Bool)
    (hne : h2 ≠ h) : (set_always_on_top s h b).os h2 = s.os h2 := by
  unfold set_always_on_top osSet
  split
  · simp [hne]
  · rfl

theorem os_restore_window_frame_ne (s : WMState) (h h2 : Hwnd)
    (hne : h2 ≠ h) : (restore_window_frame s h).os h2 = s.os h2 := by
  unfold restore_window_frame osSet
  split
  · simp [hne]
  · rfl

theorem os_keep_titlebar_ne (s : WMState) (h h2 : Hwnd) (b : Bool)
    (hne : h2 ≠ h) : (keep_titlebar s h b).os h2 = s.os h2 := by
  unfold keep_titlebar
  split
  · exact os_restore_window_frame_ne s h h2 hne
  · unfold osSet
    split
    · simp [hne]
    · rfl

theorem restoreMetrics_book (s : WMState) (h : Hwnd) (m : Metrics) :
    (restoreMetrics s h m).managed_windows = s.managed_windows ∧
    (restoreMetrics s h m).window_states = s.window_states ∧
    (restoreMetrics s h m).topmost_windows = s.topmost_windows ∧
    (restoreMetrics s h m).valid = s.valid := by
  obtain ⟨a1, a2, a3, a4⟩ := set_window_position_book s h m.pos.1 m.pos.2
  obtain ⟨b1, b2, b3, b4⟩ :=
    set_window_size_book (set_window_position s h m.pos.1 m.pos.2) h m.size.1 m.size.2
  refine ⟨?_, ?_, ?_, ?_⟩
  · show (set_window_size (set_window_position s h m.pos.1 m.pos.2) h
      m.size.1 m.size.2).managed_windows = s.managed_windows
    rw [b1, a1]
  · show (set_window_size (set_window_position s h m.pos.1 m.pos.2) h
      m.size.1 m.size.2).window_states = s.window_states
    rw [b2, a2]
  · show (set_window_size (set_window_position s h m.pos.1 m.pos.2) h
      m.size.1 m.size.2).topmost_windows = s.topmost_windows
    rw [b3, a3]
  · show (set_window_size (set_window_position s h m.pos.1 m.pos.2) h
      m.size.1 m.size.2).valid = s.valid
    rw [b4, a4]

theorem os_restoreMetrics_ne (s : WMState) (h h2 : Hwnd) (m : Metrics)
    (hne : h2 ≠ h) : (restoreMetrics s h m).os h2 = s.os h2 := by
  unfold restoreMetrics
  simp only [osSet, if_neg hne]
  rw [os_set_window_size_ne _ _ _ _ _ hne, os_set_window_position_ne _ _ _ _ _ hne]

/-- Restoring captured metrics on a valid handle really writes them back. -/
theorem os_restoreMetrics_self (s : WMState) (h : Hwnd) (m : Metrics)
    (hv : s.valid h = true) : (restoreMetrics s h m).os h = m := by
  have hv1 : (set_window_position s h m.pos.1 m.pos.2).valid h = true := by
    rw [(set_window_position_book s h m.pos.1 m.pos.2).2.2.2]
    exact hv
  unfold restoreMetrics
  simp [set_window_position, set_window_size, osSet, hv, hv1]

theorem os_remove_managed_window_ne (s : WMState) (h h2 : Hwnd)
    (hne : h2 ≠ h) : (remove_managed_window s h).os h2 = s.os h2 := by
  unfold remove_managed_window
  split
  · split
    · split
      · exact os_restoreMetrics_ne s h h2 _ hne
      · rfl
    · rfl
    · rfl
  · rfl

/-! ### Behaviour of `remove_managed_window` and the invariant -/

/-- The fully-guarded removal branch: captured metrics present and handle
valid. -/
theorem remove_success (s : WMState) (h : Hwnd) (m : Metrics)
    (hmem : h ∈ s.managed_windows)
    (hl : lookupState s.window_states h = some (some m))
    (hv : s.valid h = true) :
    (remove_managed_window s h).managed_windows = s.managed_windows.erase h ∧
    (remove_managed_window s h).window_states = eraseKey s.window_states h ∧
    (remove_managed_window s h).os h = m ∧
    (remove_managed_window s h).valid = s.valid := by
  obtain ⟨r1, r2, r3, r4⟩ := restoreMetrics_book s h m
  unfold remove_managed_window
  rw [if_pos hmem]
  split
  · rename_i m2 heq
    rw [hl] at heq
    rw [Option.some.injEq, Option.some.injEq] at heq
    subst heq
    rw [if_pos hv]
    refine ⟨?_, ?_, ?_, ?_⟩
    · show (restoreMetrics s h m).managed_windows.erase h = s.managed_windows.erase h
      rw [r1]
    · show eraseKey (restoreMetrics s h m).window_states h = eraseKey s.window_states h
      rw [r2]
    · show (restoreMetrics s h m).os h = m
      exact os_restoreMetrics_self s h m hv
    · show (restoreMetrics s h m).valid = s.valid
      rw [r4]
  · rename_i heq
    rw [hl] at heq
    simp at heq
  · rename_i heq
    rw [hl] at heq
    simp at heq

theorem valid_remove_managed_window (s : WMState) (h : Hwnd) :
    (remove_managed_window s h).valid = s.valid := by
  unfold remove_managed_window
  split
  · split
    · split
      · rename_i m heq hv
        show (restoreMetrics s h m).valid = s.valid
        exact (restoreMetrics_book s h m).2.2.2
      · rfl
    · rfl
    · rfl
  · rfl

theorem managed_remove_managed_window (s : WMState) (h : Hwnd) :
    (remove_managed_window s h).managed_windows = s.managed_windows ∨
    (remove_managed_window s h).managed_windows = s.managed_windows.erase h := by
  unfold remove_managed_window
  split
  · split
    · split
      · rename_i m heq hv
        refine Or.inr ?_
        show (restoreMetrics s h m).managed_windows.erase h = s.managed_windows.erase h
        rw [(restoreMetrics_book s h m).1]
      · exact Or.inl rfl
    · exact Or.inl rfl
    · exact Or.inr rfl
  · exact Or.inl rfl

theorem lookup_remove_managed_window_ne (s : WMState) (h h2 : Hwnd)
    (hne : h2 ≠ h) :
    lookupState (remove_managed_window s h).window_states h2 =
      lookupState s.window_states h2 := by
  unfold remove_managed_window
  split
  · split
    · split
      · rename_i m heq hv
        show lookupState (eraseKey (restoreMetrics s h m).window_states h) h2 = _
        rw [(restoreMetrics_book s h m).2.1]
        exact lookupState_eraseKey_ne _ _ _ hne
      · rfl
    · rfl
    · rfl
  · rfl

theorem Inv_initialState (os : Hwnd → Metrics) (valid : Hwnd → Bool) :
    Inv (initialState os valid) := ⟨rfl, List.nodup_nil⟩

theorem Inv_add_managed_window (s : WMState) (h : Hwnd) (hinv : Inv s) :
    Inv (add_managed_window s h) := by
  unfold add_managed_window
  split
  · exact hinv
  · rename_i hmem
    refine ⟨?_, ?_⟩
    · show (setKey s.window_states h (get_window_metrics s h)).map Prod.fst =
        s.managed_windows ++ [h]
      rw [map_fst_setKey_of_not_mem _ _ _ (by rw [hinv.1]; exact hmem), hinv.1]
    · show (s.managed_windows ++ [h]).Nodup
      refine List.Nodup.append hinv.2 (List.nodup_singleton h) ?_
      intro a ha hb
      rw [List.mem_singleton] at hb
      subst hb
      exact hmem ha

theorem Inv_remove_managed_window (s : WMState) (h : Hwnd) (hinv : Inv s) :
    Inv (remove_managed_window s h) := by
  unfold remove_managed_window
  split
  · rename_i hmem
    split
    · split
      · rename_i m heq hv
        obtain ⟨r1, r2, r3, r4⟩ := restoreMetrics_book s h m
        refine ⟨?_, ?_⟩
        · show (eraseKey (restoreMetrics s h m).window_states h).map Prod.fst =
            (restoreMetrics s h m).managed_windows.erase h
          rw [map_fst_eraseKey, r1, r2, hinv.1]
        · show ((restoreMetrics s h m).managed_windows.erase h).Nodup
          rw [r1]
          exact hinv.2.erase h
      · exact hinv
    · exact hinv
    · rename_i heq
      have hsome : h ∈ s.window_states.map Prod.fst := by
        rw [hinv.1]; exact hmem
      rw [← lookupState_isSome_iff, heq] at hsome
      simp at hsome
  · exact hinv

/-- Bookkeeping of `apply_window_config` on a valid handle: only the
`add_managed_window` step touches the managed list and the captures. -/
theorem apply_some_book (s : WMState) (cfg : WinConfig) (h : Hwnd)
    (hv : s.valid h = true) :
    (apply_window_config s (some cfg) h).managed_windows =
      (add_managed_window s h).managed_windows ∧
    (apply_window_config s (some cfg) h).window_states =
      (add_managed_window s h).window_states ∧
    (apply_window_config s (some cfg) h).valid = s.valid := by
  unfold apply_window_config
  rw [if_pos hv]
  have hval : (add_managed_window s h).valid = s.valid := by
    unfold add_managed_window
    split <;> rfl
  refine ⟨?_, ?_, ?_⟩
  · rw [(set_always_on_top_book _ _ _).1, (set_window_size_book _ _ _ _).1,
      (set_window_position_book _ _ _ _).1, (keep_titlebar_book _ _ _).1]
  · rw [(set_always_on_top_book _ _ _).2.1, (set_window_size_book _ _ _ _).2.1,
      (set_window_position_book _ _ _ _).2.1, (keep_titlebar_book _ _ _).2.1]
  · rw [(set_always_on_top_book _ _ _).2.2, (set_window_size_book _ _ _ _).2.2.2,
      (set_window_position_book _ _ _ _).2.2.2, (keep_titlebar_book _ _ _).2.2.2,
      hval]

theorem Inv_apply_window_config (s : WMState) (cfg : Option WinConfig)
    (h : Hwnd) (hinv : Inv s) : Inv (apply_window_config s cfg h) := by
  rcases cfg with _ | c
  · unfold apply_window_config
    split <;> exact hinv
  · by_cases hv : s.valid h = true
    · obtain ⟨b1, b2, _⟩ := apply_some_book s c h hv
      have h1 := Inv_add_managed_window s h hinv
      exact ⟨by rw [b1, b2]; exact h1.1, by rw [b1]; exact h1.2⟩
    · unfold apply_window_config
      rw [if_neg (by simpa using hv)]
      exact hinv

theorem Inv_resetOne (s : WMState) (h : Hwnd) (hinv : Inv s) :
    Inv (resetOne s h) := by
  unfold resetOne
  apply Inv_remove_managed_window
  refine ⟨?_, ?_⟩
  · rw [(restore_window_frame_book _ _).2.1, (restore_window_frame_book _ _).1,
      (set_always_on_top_book _ _ _).2.1, (set_always_on_top_book _ _ _).1]
    exact hinv.1
  · rw [(restore_window_frame_book _ _).1, (set_always_on_top_book _ _ _).1]
    exact hinv.2

theorem Inv_reset_all_windows (s : WMState) (hinv : Inv s) :
    Inv (reset_all_windows s) := by
  unfold reset_all_windows
  generalize s.managed_windows = todo
  induction todo generalizing s with
  | nil => exact hinv
  | cons h t ih => exact ih _ (Inv_resetOne s h hinv)

/-! ### The reset loop -/

theorem resetOne_book (s : WMState) (h : Hwnd) :
    (resetOne s h).valid = s.valid ∧
    ((resetOne s h).managed_windows = s.managed_windows ∨
      (resetOne s h).managed_windows = s.managed_windows.erase h) := by
  unfold resetOne
  have f1 := restore_window_frame_book (set_always_on_top s h false) h
  have a1 := set_always_on_top_book s h false
  constructor
  · rw [valid_remove_managed_window, f1.2.2.2, a1.2.2]
  · rcases managed_remove_managed_window
        (restore_window_frame (set_always_on_top s h false) h) h with hm | hm
    · exact Or.inl (by rw [hm, f1.1, a1.1])
    · exact Or.inr (by rw [hm, f1.1, a1.1])

theorem os_resetOne_ne (s : WMState) (h h2 : Hwnd) (hne : h2 ≠ h) :
    (resetOne s h).os h2 = s.os h2 := by
  unfold resetOne
  rw [os_remove_managed_window_ne _ _ _ hne, os_restore_window_frame_ne _ _ _ hne,
    os_set_always_on_top_ne _ _ _ _ hne]

theorem lookup_resetOne_ne (s : WMState) (h h2 : Hwnd) (hne : h2 ≠ h) :
    lookupState (resetOne s h).window_states h2 =
      lookupState s.window_states h2 := by
  unfold resetOne
  rw [lookup_remove_managed_window_ne _ _ _ hne,
    (restore_window_frame_book _ _).2.1, (set_always_on_top_book _ _ _).2.1]

/-- Running the reset iteration on a managed, valid handle with a real
capture restores that handle's metrics and unmanages it. -/
theorem resetOne_success (s : WMState) (h : Hwnd) (m : Metrics)
    (hmem : h ∈ s.managed_windows)
    (hl : lookupState s.window_states h = some (some m))
    (hv : s.valid h = true) :
    (resetOne s h).managed_windows = s.managed_windows.erase h ∧
    (resetOne s h).window_states = eraseKey s.window_states h ∧
    (resetOne s h).os h = m ∧
    (resetOne s h).valid = s.valid := by
  unfold resetOne
  have a1 := set_always_on_top_book s h false
  have f1 := restore_window_frame_book (set_always_on_top s h false) h
  set t2 := restore_window_frame (set_always_on_top s h false) h with ht2
  have hmem2 : h ∈ t2.managed_windows := by rw [f1.1, a1.1]; exact hmem
  have hl2 : lookupState t2.window_states h = some (some m) := by
    rw [f1.2.1, a1.2.1]; exact hl
  have hv2 : t2.valid h = true := by rw [f1.2.2.2, a1.2.2]; exact hv
  obtain ⟨q1, q2, q3, q4⟩ := remove_success t2 h m hmem2 hl2 hv2
  refine ⟨?_, ?_, q3, ?_⟩
  · rw [q1, f1.1, a1.1]
  · rw [q2, f1.2.1, a1.2.1]
  · rw [q4, f1.2.2.2, a1.2.2]

theorem foldl_resetOne_os_not_mem :
    ∀ (l : List Hwnd) (s : WMState) (h : Hwnd), h ∉ l →
      (l.foldl resetOne s).os h = s.os h := by
  intro l
  induction l with
  | nil => intro s h _; rfl
  | cons h2 t ih =>
    intro s h hmem
    rw [List.foldl_cons, ih _ _ (fun hx => hmem (List.mem_cons_of_mem _ hx)),
      os_resetOne_ne _ _ _ (fun hx => hmem (by rw [hx]; exact List.mem_cons_self _ _))]

/-- Every managed, valid handle with a real capture ends the reset loop
with its captured metrics written back. -/
theorem foldl_resetOne_restores :
    ∀ (todo : List Hwnd) (s : WMState) (h : Hwnd) (m : Metrics),
      h ∈ todo → todo.Nodup → s.valid h = true → h ∈ s.managed_windows →
      lookupState s.window_states h = some (some m) →
      (todo.foldl resetOne s).os h = m := by
  intro todo
  induction todo with
  | nil => intro s h m hmem; simp at hmem
  | cons h2 t ih =>
    intro s h m hmem hnd hv hman hl
    rw [List.nodup_cons] at hnd
    rw [List.foldl_cons]
    by_cases he : h = h2
    · subst he
      obtain ⟨_, _, q3, _⟩ := resetOne_success s h m hman hl hv
      rw [foldl_resetOne_os_not_mem t _ h hnd.1, q3]
    · rcases List.mem_cons.mp hmem with h3 | h3
      · exact absurd h3 he
      · refine ih _ h m h3 hnd.2 ?_ ?_ ?_
        · rw [(resetOne_book s h2).1]; exact hv
        · rcases (resetOne_book s h2).2 with hm | hm
          · rw [hm]; exact hman
          · rw [hm]; exact List.mem_erase_of_ne he |>.mpr hman
        · rw [lookup_resetOne_ne s h2 h he, hl]

/-- When every managed handle is valid and has a real capture, the reset
loop empties both the managed list and the capture map. -/
theorem foldl_resetOne_empties :
    ∀ (todo : List Hwnd) (s : WMState),
      s.window_states.map Prod.fst = s.managed_windows →
      s.managed_windows.Nodup →
      s.managed_windows = todo →
      (∀ h2 ∈ todo, s.valid h2 = true) →
      (∀ h2 ∈ todo, ∃ m, lookupState s.window_states h2 = some (some m)) →
      (todo.foldl resetOne s).managed_windows = [] ∧
      (todo.foldl resetOne s).window_states = [] := by
  intro todo
  induction todo with
  | nil =>
    intro s hkeys hnd hman _ _
    refine ⟨hman, ?_⟩
    have : s.window_states.map Prod.fst = [] := by rw [hkeys, hman]
    exact List.map_eq_nil_iff.mp this
  | cons h t ih =>
    intro s hkeys hnd hman hval hcap
    obtain ⟨m, hm⟩ := hcap h (List.mem_cons_self _ _)
    have hmem : h ∈ s.managed_windows := by rw [hman]; exact List.mem_cons_self _ _
    obtain ⟨q1, q2, _, q4⟩ :=
      resetOne_success s h m hmem hm (hval h (List.mem_cons_self _ _))
    rw [List.foldl_cons]
    have hndt : (h :: t).Nodup := by rw [← hman]; exact hnd
    rw [List.nodup_cons] at hndt
    refine ih (resetOne s h) ?_ ?_ ?_ ?_ ?_
    · rw [q1, q2, map_fst_eraseKey, hkeys]
    · rw [q1]; exact hnd.erase h
    · rw [q1, hman, List.erase_cons_head]
    · intro h2 hh2
      rw [q4]
      exact hval h2 (List.mem_cons_of_mem _ hh2)
    · intro h2 hh2
      have hne : h2 ≠ h := fun he => hndt.1 (he ▸ hh2)
      obtain ⟨m2, hm2⟩ := hcap h2 (List.mem_cons_of_mem _ hh2)
      refine ⟨m2, ?_⟩
      rw [lookup_resetOne_ne s h h2 hne, hm2]

/-! ## Claims C1, C9, C10: captured-state lifecycle -/

theorem add_managed_window_fresh (s : WMState) (h : Hwnd)
    (hfresh : h ∉ s.managed_windows) :
    (add_managed_window s h).managed_windows = s.managed_windows ++ [h] ∧
    (add_managed_window s h).window_states =
      setKey s.window_states h (get_window_metrics s h) := by
  unfold add_managed_window
  rw [if_neg hfresh]
  exact ⟨rfl, rfl⟩

/-- The state reached by applying a config to a fresh, valid handle:
managed at the end of the list, with the pre-apply metrics captured. -/
theorem apply_fresh_facts (s : WMState) (cfg : WinConfig) (h : Hwnd)
    (hv : s.valid h = true) (hfresh : h ∉ s.managed_windows) :
    (apply_window_config s (some cfg) h).managed_windows =
      s.managed_windows ++ [h] ∧
    lookupState (apply_window_config s (some cfg) h).window_states h =
      some (some (s.os h)) ∧
    (apply_window_config s (some cfg) h).valid = s.valid := by
  obtain ⟨b1, b2, b3⟩ := apply_some_book s cfg h hv
  obtain ⟨a1, a2⟩ := add_managed_window_fresh s h hfresh
  refine ⟨by rw [b1, a1], ?_, b3⟩
  rw [b2, a2, lookupState_setKey_self]
  unfold get_window_metrics
  rw [if_pos hv]

/-- C1: applying a config to a not-yet-managed valid window captures its
position, size, style and extended-style, and an immediate reset
(`remove_managed_window`, or `reset_all_windows`) writes those captured
metrics back exactly; `remove_managed_window` moreover deletes the capture
and unmanages the handle. -/
theorem C1_apply_reset_roundtrip (s : WMState) (cfg : WinConfig) (h : Hwnd)
    (hv : s.valid h = true) (hfresh : h ∉ s.managed_windows) (hinv : Inv s) :
    (remove_managed_window (apply_window_config s (some cfg) h) h).os h =
      s.os h ∧
    lookupState
      (remove_managed_window (apply_window_config s (some cfg) h) h).window_states
      h = none ∧
    h ∉ (remove_managed_window
      (apply_window_config s (some cfg) h) h).managed_windows ∧
    (reset_all_windows (apply_window_config s (some cfg) h)).os h = s.os h := by
  obtain ⟨hmanaged, hlook1, hvalid1⟩ := apply_fresh_facts s cfg h hv hfresh
  have hmem1 : h ∈ (apply_window_config s (some cfg) h).managed_windows := by
    rw [hmanaged]
    exact List.mem_append_right _ (List.mem_singleton_self h)
  have hv1 : (apply_window_config s (some cfg) h).valid h = true := by
    rw [hvalid1]; exact hv
  have hinv1 : Inv (apply_window_config s (some cfg) h) :=
    Inv_apply_window_config s (some cfg) h hinv
  obtain ⟨q1, q2, q3, _⟩ :=
    remove_success (apply_window_config s (some cfg) h) h (s.os h) hmem1 hlook1 hv1
  refine ⟨q3, ?_, ?_, ?_⟩
  · rw [q2]
    exact lookupState_eraseKey_self _ _ (by rw [hinv1.1]; exact hinv1.2)
  · rw [q1, hmanaged, List.erase_append_right _ hfresh, List.erase_cons_head,
      List.append_nil]
    exact hfresh
  · unfold reset_all_windows
    exact foldl_resetOne_restores _ _ h (s.os h) hmem1 hinv1.2 hv1 hmem1 hlook1

/-- Witness for C1 at a concrete state and config. -/
theorem C1_apply_reset_roundtrip_witness :
    (remove_managed_window
      (apply_window_config
        (initialState (fun _ => ⟨(5, 6), (300, 200), 13565952, 256⟩)
          (fun _ => true))
        (some ⟨(0, 0), (960, 1080), true, false⟩) 7) 7).os 7 =
      (initialState (fun _ => ⟨(5, 6), (300, 200), 13565952, 256⟩)
        (fun _ => true)).os 7 :=
  (C1_apply_reset_roundtrip
    (initialState (fun _ => ⟨(5, 6), (300, 200), 13565952, 256⟩) (fun _ => true))
    ⟨(0, 0), (960, 1080), true, false⟩ 7 rfl (List.not_mem_nil 7)
    ⟨rfl, List.nodup_nil⟩).1

/-- C9: at every reachable manager state, a handle is a key of the
captured-state map exactly when it is in the managed list: the pairing
holds initially and is preserved by `add_managed_window`,
`remove_managed_window`, `apply_window_config` and `reset_all_windows`;
and when every managed handle is valid with a real capture (as on every
state reached through `apply_window_config`), `reset_all_windows` leaves
both the managed list and the capture map empty. -/
theorem C9_pairing_invariant :
    (∀ (os : Hwnd → Metrics) (valid : Hwnd → Bool),
      Inv (initialState os valid)) ∧
    (∀ s h, Inv s → Inv (add_managed_window s h)) ∧
    (∀ s h, Inv s → Inv (remove_managed_window s h)) ∧
    (∀ s cfg h, Inv s → Inv (apply_window_config s cfg h)) ∧
    (∀ s, Inv s → Inv (reset_all_windows s)) ∧
    (∀ s h, Inv s →
      (h ∈ s.managed_windows ↔ (lookupState s.window_states h).isSome = true)) ∧
    (∀ s, Inv s →
      (∀ h ∈ s.managed_windows, s.valid h = true) →
      (∀ h ∈ s.managed_windows,
        ∃ m, lookupState s.window_states h = some (some m)) →
      (reset_all_windows s).managed_windows = [] ∧
      (reset_all_windows s).window_states = []) := by
  refine ⟨Inv_initialState, Inv_add_managed_window, Inv_remove_managed_window,
    Inv_apply_window_config, Inv_reset_all_windows, ?_, ?_⟩
  · intro s h hinv
    rw [lookupState_isSome_iff, hinv.1]
  · intro s hinv hval hcap
    unfold reset_all_windows
    exact foldl_resetOne_empties s.managed_windows s hinv.1 hinv.2 rfl hval hcap

/-- Witness for C9: the pairing after an apply on a fresh state. -/
theorem C9_pairing_invariant_witness :
    Inv (apply_window_config
      (initialState (fun _ => ⟨(0, 0), (100, 100), 0, 0⟩) (fun _ => true))
      (some ⟨(10, 20), (640, 480), false, true⟩) 3) :=
  C9_pairing_invariant.2.2.2.1 _ (some ⟨(10, 20), (640, 480), false, true⟩) 3
    ⟨rfl, List.nodup_nil⟩

/-- C10: a handle that is already managed keeps its stored CapturedState:
`add_managed_window` is the identity on it, a re-apply leaves the capture
map untouched, and after applying two configs in a row the reset still
restores the metrics from before the first apply. -/
theorem C10_snapshot_never_overwritten (s : WMState) (cfg cfg2 : WinConfig)
    (h : Hwnd) :
    (h ∈ s.managed_windows → add_managed_window s h = s) ∧
    (h ∈ s.managed_windows →
      (apply_window_config s (some cfg) h).window_states = s.window_states) ∧
    (s.valid h = true → h ∉ s.managed_windows → Inv s →
      (remove_managed_window
        (apply_window_config (apply_window_config s (some cfg) h)
          (some cfg2) h) h).os h = s.os h) := by
  have hadd : ∀ t : WMState, h ∈ t.managed_windows →
      add_managed_window t h = t := by
    intro t hm
    unfold add_managed_window
    rw [if_pos hm]
  refine ⟨hadd s, ?_, ?_⟩
  · intro hm
    by_cases hv : s.valid h = true
    · rw [(apply_some_book s cfg h hv).2.1, hadd s hm]
    · unfold apply_window_config
      rw [if_neg (by simpa using hv)]
  · intro hv hfresh hinv
    obtain ⟨hmanaged, hlook1, hvalid1⟩ := apply_fresh_facts s cfg h hv hfresh
    have hmem1 : h ∈ (apply_window_config s (some cfg) h).managed_windows := by
      rw [hmanaged]
      exact List.mem_append_right _ (List.mem_singleton_self h)
    have hv1 : (apply_window_config s (some cfg) h).valid h = true := by
      rw [hvalid1]; exact hv
    obtain ⟨c1, c2, c3⟩ :=
      apply_some_book (apply_window_config s (some cfg) h) cfg2 h hv1
    have hstates2 :
        (apply_window_config (apply_window_config s (some cfg) h)
          (some cfg2) h).window_states =
          (apply_window_config s (some cfg) h).window_states := by
      rw [c2, hadd _ hmem1]
    have hmem2 : h ∈ (apply_window_config (apply_window_config s (some cfg) h)
        (some cfg2) h).managed_windows := by
      rw [c1, hadd _ hmem1]
      exact hmem1
    have hlook2 : lookupState
        (apply_window_config (apply_window_config s (some cfg) h)
          (some cfg2) h).window_states h = some (some (s.os h)) := by
      rw [hstates2]
      exact hlook1
    have hv2 : (apply_window_config (apply_window_config s (some cfg) h)
        (some cfg2) h).valid h = true := by
      rw [c3]
      exact hv1
    exact (remove_success _ h (s.os h) hmem2 hlook2 hv2).2.2.1

/-- Witness for C10: double apply then reset restores the initial metrics. -/
theorem C10_snapshot_never_overwritten_witness :
    (remove_managed_window
      (apply_window_config
        (apply_window_config
          (initialState (fun _ => ⟨(1, 2), (640, 480), 33, 9⟩) (fun _ => true))
          (some ⟨(0, 0), (960, 1080), true, false⟩) 5)
        (some ⟨(960, 0), (960, 1080), false, true⟩) 5) 5).os 5 =
      (initialState (fun _ => ⟨(1, 2), (640, 480), 33, 9⟩)
        (fun _ => true)).os 5 :=
  (C10_snapshot_never_overwritten
    (initialState (fun _ => ⟨(1, 2), (640, 480), 33, 9⟩) (fun _ => true))
    ⟨(0, 0), (960, 1080), true, false⟩ ⟨(960, 0), (960, 1080), false, true⟩
    5).2.2 rfl (List.not_mem_nil 5) ⟨rfl, List.nodup_nil⟩

/-! ## Claim C5: drift detection
(`ApplicationState.compare_window_data` / `auto_reapply`, `main.py`) -/

/-- The per-window settings `auto_reapply` reads from the applied config
(`position`/`size` parsed from their `"x,y"` strings when present, `None`
otherwise; booleans via `getboolean` with their fallbacks). -/
structure DriftSettings where
  position : Option (ℤ × ℤ)
  size : Option (ℤ × ℤ)
  always_on_top : Bool
  has_titlebar : Bool

/-- `ApplicationState.compare_window_data`: `True` exactly when no
difference is recorded over the four fields — position and size as exact
tuple equality (missing values default to `(0,0)`), always-on-top against
the `WS_EX_TOPMOST` (0x8) extended-style bit, titlebar against the
`WS_CAPTION` (0x00C00000) style bits. -/
def compare_window_data (settings : DriftSettings) (metrics : Metrics) : Bool :=
  decide (settings.position.getD (0, 0) = metrics.pos) &&
  decide (settings.size.getD (0, 0) = metrics.size) &&
  (settings.always_on_top == decide ((metrics.exstyle &&& 0x8) ≠ 0)) &&
  (settings.has_titlebar == decide ((metrics.style &&& 0xC00000) ≠ 0))

/-- The decision in `ApplicationState.auto_reapply`: re-apply the whole
config iff `not all(compare_results)` over the matched windows. -/
def auto_reapply_triggers (matched : List (DriftSettings × Metrics)) : Bool :=
  !(matched.all fun p => compare_window_data p.1 p.2)

theorem compare_window_data_iff (st : DriftSettings) (m : Metrics) :
    compare_window_data st m = true ↔
      (st.position.getD (0, 0) = m.pos ∧
       st.size.getD (0, 0) = m.size ∧
       (st.always_on_top = true ↔ (m.exstyle &&& 0x8) ≠ 0) ∧
       (st.has_titlebar = true ↔ (m.style &&& 0xC00000) ≠ 0)) := by
  unfold compare_window_data
  simp only [Bool.and_eq_true, decide_eq_true_eq, beq_iff_eq, and_assoc]
  constructor
  · rintro ⟨h1, h2, h3, h4⟩
    refine ⟨h1, h2, ?_, ?_⟩
    · rw [h3]; simp
    · rw [h4]; simp
  · rintro ⟨h1, h2, h3, h4⟩
    refine ⟨h1, h2, ?_, ?_⟩
    · rcases hb : st.always_on_top with _ | _
      · simp only [hb, Bool.false_eq_true, false_iff] at h3
        simp [h3]
      · simp only [hb, true_iff] at h3
        simp [h3]
    · rcases hb : st.has_titlebar with _ | _
      · simp only [hb, Bool.false_eq_true, false_iff] at h4
        simp [h4]
      · simp only [hb, true_iff] at h4
        simp [h4]

/-- C5: the drift detector triggers a re-apply of the whole config exactly
when at least one matched window differs from its configured values on at
least one of position, size, the always-on-top extended-style bit or the
titlebar style bit — all comparisons exact; and when every matched window
agrees on all four fields, no re-apply occurs. -/
theorem C5_drift_detection (matched : List (DriftSettings × Metrics)) :
    (auto_reapply_triggers matched = true ↔
      ∃ p ∈ matched,
        p.1.position.getD (0, 0) ≠ p.2.pos ∨
        p.1.size.getD (0, 0) ≠ p.2.size ∨
        ¬(p.1.always_on_top = true ↔ (p.2.exstyle &&& 0x8) ≠ 0) ∨
        ¬(p.1.has_titlebar = true ↔ (p.2.style &&& 0xC00000) ≠ 0)) ∧
    (auto_reapply_triggers matched = false ↔
      ∀ p ∈ matched,
        p.1.position.getD (0, 0) = p.2.pos ∧
        p.1.size.getD (0, 0) = p.2.size ∧
        (p.1.always_on_top = true ↔ (p.2.exstyle &&& 0x8) ≠ 0) ∧
        (p.1.has_titlebar = true ↔ (p.2.style &&& 0xC00000) ≠ 0)) := by
  have hall : (matched.all fun p => compare_window_data p.1 p.2) = true ↔
      ∀ p ∈ matched,
        p.1.position.getD (0, 0) = p.2.pos ∧
        p.1.size.getD (0, 0) = p.2.size ∧
        (p.1.always_on_top = true ↔ (p.2.exstyle &&& 0x8) ≠ 0) ∧
        (p.1.has_titlebar = true ↔ (p.2.style &&& 0xC00000) ≠ 0) := by
    rw [List.all_eq_true]
    constructor
    · intro h p hp
      exact (compare_window_data_iff p.1 p.2).mp (h p hp)
    · intro h p hp
      exact (compare_window_data_iff p.1 p.2).mpr (h p hp)
  constructor
  · unfold auto_reapply_triggers
    rw [Bool.not_eq_true', ← Bool.not_eq_true, hall]
    constructor
    · intro hne
      by_contra hcon
      push_neg at hcon
      exact hne fun p hp => ⟨(hcon p hp).1, (hcon p hp).2.1,
        (hcon p hp).2.2.1, (hcon p hp).2.2.2⟩
    · rintro ⟨p, hp, hdisj⟩ hcon
      have := hcon p hp
      tauto
  · unfold auto_reapply_triggers
    rw [Bool.not_eq_false', hall]

/-! ## The auto-layout generator
(`auto_position` in `lib/layout.py`, presets in `lib/constants.py`)

Screen dimensions are the integers reported by tk; aspect ratios and
weights are `fractions.Fraction` values, modelled as `ℚ`; every emitted
coordinate goes through Python `int()`, i.e. truncation toward zero.  The
relative origins/sizes of the four-window presets are the dyadic rationals
`0, 1/4, 1/2, 3/4, 1`, on which Python float arithmetic is exact. -/

/-- Python `int()` on a `Fraction`: truncation toward zero. -/
def pyint (q : ℚ) : ℤ := if q < 0 then -⌊-q⌋ else ⌊q⌋

structure PRect where
  x : ℤ
  y : ℤ
  w : ℤ
  h : ℤ
deriving DecidableEq

/-- `UIConstants.TASKBAR_HEIGHT`. -/
def TASKBAR_HEIGHT : ℤ := 48

def usableHeight (sh : ℤ) : ℤ := sh - TASKBAR_HEIGHT

/-- `LayoutDefaults.ONE_WINDOW`: `(aspectW, aspectH, alignment)`. -/
def ONE_WINDOW : List (ℤ × ℤ × String) :=
  [(32, 9, "X"), (21, 9, "C"), (16, 9, "C"), (4, 3, "C"),
   (21, 9, "L"), (16, 9, "L"), (4, 3, "L"),
   (21, 9, "R"), (16, 9, "R"), (4, 3, "R")]

/-- `LayoutDefaults.TWO_WINDOWS`: `(aspectW, aspectH, side)`. -/
def TWO_WINDOWS : List (ℤ × ℤ × String) :=
  [(21, 9, "R"), (16, 9, "R"), (4, 3, "R"),
   (21, 9, "L"), (16, 9, "L"), (4, 3, "L"),
   (21, 9, "CL"), (16, 9, "CL"), (4, 3, "CL"),
   (21, 9, "CR"), (16, 9, "CR"), (4, 3, "CR")]

/-- `LayoutDefaults.THREE_WINDOWS`: `(aspectW, aspectH, leftWeight)`. -/
def THREE_WINDOWS : List (ℤ × ℤ × ℚ) :=
  [(21, 9, 1/2), (16, 9, 1/2), (4, 3, 1/2),
   (21, 9, 2/3), (16, 9, 2/3), (4, 3, 2/3),
   (21, 9, 3/5), (16, 9, 3/5), (4, 3, 3/5),
   (21, 9, 2/5), (16, 9, 2/5), (4, 3, 2/5)]

/-- `LayoutDefaults.FOUR_WINDOWS`: lists of `((relX, relY), (relW, relH))`. -/
def FOUR_WINDOWS : List (List ((ℚ × ℚ) × (ℚ × ℚ))) :=
  [[((0, 0), (1/4, 1)), ((1/4, 0), (1/4, 1)),
    ((1/2, 0), (1/4, 1)), ((3/4, 0), (1/4, 1))],
   [((0, 0), (1/2, 1/2)), ((0, 1/2), (1/2, 1/2)),
    ((1/2, 0), (1/4, 1)), ((3/4, 0), (1/4, 1))],
   [((0, 0), (1/4, 1)), ((1/4, 0), (1/4, 1)),
    ((1/2, 0), (1/2, 1/2)), ((1/2, 1/2), (1/2, 1/2))],
   [((0, 0), (1/2, 1/2)), ((1/2, 0), (1/2, 1/2)),
    ((0, 1/2), (1/2, 1/2)), ((1/2, 1/2), (1/2, 1/2))]]

/-- The one-window branch of `auto_position` (the `else` arm): window width
is `screen_height * ratio`, full screen height, x-origin by alignment
(unknown tags fall through with `x = 0`, the "Fullscreen" text case). -/
def auto1 (num den : ℤ) (side : String) (sw sh : ℤ) : List PRect :=
  let ratio : ℚ := (num : ℚ) / (den : ℚ)
  let ww : ℚ := (sh : ℚ) * ratio
  let x : ℚ :=
    if side = "R" then (sw : ℚ) - ww
    else if side = "L" then 0
    else if side = "C" then (sw : ℚ) / 2 - ww / 2
    else 0
  [⟨pyint x, 0, pyint ww, sh⟩]

/-- The two-window branch of `auto_position`: one pane `screen_height *
ratio` wide, the other filling (R/L) or centering (CL/CR); L/R panes span
the full screen height, the centered pair mixes full and usable height. -/
def auto2 (num den : ℤ) (side : String) (sw sh : ℤ) : List PRect :=
  let ratio : ℚ := (num : ℚ) / (den : ℚ)
  let narrow : ℚ := (sh : ℚ) * ratio
  let left_x : ℚ := if side = "CR" then (sw : ℚ) / 2 - narrow / 2 else 0
  let left_w : ℚ :=
    if side = "R" then (sw : ℚ) - narrow
    else if side = "L" then narrow
    else if side = "CL" then (sw : ℚ) / 2 - narrow / 2
    else if side = "CR" then narrow
    else 0
  let right_w : ℚ :=
    if side = "R" then narrow
    else if side = "L" then (sw : ℚ) - narrow
    else if side = "CL" then narrow
    else if side = "CR" then (sw : ℚ) / 2 - narrow / 2
    else 0
  let base_h : ℚ := if side = "R" ∨ side = "L" then (sh : ℚ)
    else ((usableHeight sh : ℤ) : ℚ)
  let left_h : ℚ := if side = "CR" then (sh : ℚ) else base_h
  let right_h : ℚ := if side = "CL" then (sh : ℚ) else base_h
  let right_x : ℚ := if side = "CR" then left_x + left_w else left_w
  [⟨pyint left_x, 0, pyint left_w, pyint left_h⟩,
   ⟨pyint right_x, 0, pyint right_w, pyint right_h⟩]

/-- The weight validation in the three-window branch: weights outside
`[0, 1]` reset to `1/2`. -/
def clampWeight (w : ℚ) : ℚ := if 0 ≤ w ∧ w ≤ 1 then w else 1/2

/-- The three-window branch of `auto_position`: full-height center pane of
width `screen_height * ratio`, remaining width split left/right by the
preset weight, sides at usable height. -/
def auto3 (num den : ℤ) (w1 : ℚ) (sw sh : ℤ) : List PRect :=
  let weight1 := clampWeight w1
  let weight2 := 1 - weight1
  let ratio : ℚ := (num : ℚ) / (den : ℚ)
  let aux : ℚ := (sw : ℚ) - (sh : ℚ) * ratio
  let lw : ℚ := aux * weight1
  let cw : ℚ := (sh : ℚ) * ratio
  let rw : ℚ := aux * weight2
  [⟨pyint 0, pyint 0, pyint lw, usableHeight sh⟩,
   ⟨pyint lw, 0, pyint cw, sh⟩,
   ⟨pyint (lw + cw), 0, pyint rw, usableHeight sh⟩]

/-- The four-window branch of `auto_position`: each rectangle is the
relative preset scaled by `(screen_width, usable_height)`. -/
def auto4 (layout : List ((ℚ × ℚ) × (ℚ × ℚ))) (sw sh : ℤ) : List PRect :=
  layout.map fun e =>
    ⟨pyint (e.1.1 * (sw : ℚ)), pyint (e.1.2 * ((usableHeight sh : ℤ) : ℚ)),
     pyint (e.2.1 * (sw : ℚ)), pyint (e.2.2 * ((usableHeight sh : ℤ) : ℚ))⟩

/-- Presets per window count (`self.auto_align_layouts`, default tables). -/
def presetCount (n : ℕ) : ℕ :=
  match n with
  | 1 => ONE_WINDOW.length
  | 2 => TWO_WINDOWS.length
  | 3 => THREE_WINDOWS.length
  | 4 => FOUR_WINDOWS.length
  | _ => 0

/-- `auto_position`, by window count and preset index, emitting the
position/size rectangles it writes into the settings fields. -/
def auto_position (n idx : ℕ) (sw sh : ℤ) : List PRect :=
  match n with
  | 4 => auto4 (FOUR_WINDOWS.getD idx []) sw sh
  | 3 =>
    let p := THREE_WINDOWS.getD idx (21, 9, 1/2)
    auto3 p.1 p.2.1 p.2.2 sw sh
  | 2 =>
    let p := TWO_WINDOWS.getD idx (21, 9, "R")
    auto2 p.1 p.2.1 p.2.2 sw sh
  | 1 =>
    let p := ONE_WINDOW.getD idx (32, 9, "X")
    auto1 p.1 p.2.1 p.2.2 sw sh
  | _ => []

/-- `self.layout_number = 0 if self.layout_number >= layout_max else
self.layout_number + 1` (line 834 of `lib/layout.py`). -/
def nextLayoutNumber (cur layoutMax : ℕ) : ℕ :=
  if cur ≥ layoutMax then 0 else cur + 1

/-- The preset index used by the `(k+1)`-th consecutive invocation of
`auto_position` for a fixed window count, starting from the initial
`layout_number = 0`. -/
def layoutNumberAfter (n k : ℕ) : ℕ :=
  (fun c => nextLayoutNumber c (presetCount n - 1))^[k] 0

/-- C8: preset cycling is round-robin — for every window count 1–4 with N
presets, the (N+1)-th consecutive invocation uses preset index 0 again and
hence produces the same rectangle set as the first invocation. -/
theorem C8_preset_cycling :
    layoutNumberAfter 1 (presetCount 1) = 0 ∧
    layoutNumberAfter 2 (presetCount 2) = 0 ∧
    layoutNumberAfter 3 (presetCount 3) = 0 ∧
    layoutNumberAfter 4 (presetCount 4) = 0 ∧
    (∀ sw sh, auto_position 1 (layoutNumberAfter 1 (presetCount 1)) sw sh =
      auto_position 1 0 sw sh) ∧
    (∀ sw sh, auto_position 2 (layoutNumberAfter 2 (presetCount 2)) sw sh =
      auto_position 2 0 sw sh) ∧
    (∀ sw sh, auto_position 3 (layoutNumberAfter 3 (presetCount 3)) sw sh =
      auto_position 3 0 sw sh) ∧
    (∀ sw sh, auto_position 4 (layoutNumberAfter 4 (presetCount 4)) sw sh =
      auto_position 4 0 sw sh) := by
  have h1 : layoutNumberAfter 1 (presetCount 1) = 0 := by decide
  have h2 : layoutNumberAfter 2 (presetCount 2) = 0 := by decide
  have h3 : layoutNumberAfter 3 (presetCount 3) = 0 := by decide
  have h4 : layoutNumberAfter 4 (presetCount 4) = 0 := by decide
  exact ⟨h1, h2, h3, h4,
    fun sw sh => by rw [h1], fun sw sh => by rw [h2],
    fun sw sh => by rw [h3], fun sw sh => by rw [h4]⟩

/-! ## Claim C4: geometry bounds for the auto layouts -/

theorem pyint_of_nonneg {q : ℚ} (h : 0 ≤ q) : pyint q = ⌊q⌋ :=
  if_neg (not_lt.mpr h)

theorem pyint_nonneg {q : ℚ} (h : 0 ≤ q) : 0 ≤ pyint q := by
  rw [pyint_of_nonneg h]
  exact Int.floor_nonneg.mpr h

/-- The set of integer pixels covered by a rectangle. -/
def pixelSet (r : PRect) : Finset (ℤ × ℤ) :=
  Finset.Ico r.x (r.x + r.w) ×ˢ Finset.Ico r.y (r.y + r.h)

/-- Number of pixels covered by at least one of the rectangles. -/
def unionArea (l : List PRect) : ℕ :=
  (l.foldr (fun r acc => pixelSet r ∪ acc) ∅).card

theorem pixelSet_card (r : PRect) :
    (pixelSet r).card = r.w.toNat * r.h.toNat := by
  unfold pixelSet
  rw [Finset.card_product, Int.card_Ico, Int.card_Ico,
    add_sub_cancel_left, add_sub_cancel_left]

theorem unionArea_le_sum (l : List PRect) :
    unionArea l ≤ (l.map fun r => r.w.toNat * r.h.toNat).sum := by
  unfold unionArea
  induction l with
  | nil => simp
  | cons r t ih =>
    rw [List.foldr_cons, List.map_cons, List.sum_cons]
    refine le_trans (Finset.card_union_le _ _) ?_
    rw [pixelSet_card]
    exact Nat.add_le_add_left ih _

/-- Glue: a bound on the integer sum of the rectangle areas bounds the
union area. -/
theorem unionArea_le_of_sum_le (l : List PRect) (A : ℤ)
    (h : (((l.map fun r => r.w.toNat * r.h.toNat).sum : ℕ) : ℤ) ≤ A) :
    (unionArea l : ℤ) ≤ A :=
  le_trans (by exact_mod_cast unionArea_le_sum l) h

/-- One floored product is below the real product (all factors nonneg). -/
theorem floor_mul_floor_le {w h : ℚ} (hw : 0 ≤ w) (hh : 0 ≤ h) :
    ((⌊w⌋ : ℚ) * (⌊h⌋ : ℚ)) ≤ w * h :=
  mul_le_mul (Int.floor_le w) (Int.floor_le h)
    (by exact_mod_cast Int.floor_nonneg.mpr hh) hw

/-! ### Shared bounds for one/two/three/four rectangle layouts -/

theorem single_rect_bounds (x : ℚ) (w : ℚ) (hgt sw sh : ℤ)
    (hw0 : 0 ≤ w) (hg0 : 0 ≤ hgt) (hwle : w ≤ (sw : ℚ)) (hgle : hgt ≤ sh) :
    (∀ r ∈ [PRect.mk (pyint x) 0 (pyint w) hgt], 0 ≤ r.w ∧ 0 ≤ r.h) ∧
    (unionArea [PRect.mk (pyint x) 0 (pyint w) hgt] : ℤ) ≤ sw * sh := by
  have hfw := pyint_nonneg hw0
  constructor
  · intro r hr
    rw [List.mem_singleton] at hr
    subst hr
    exact ⟨hfw, hg0⟩
  · refine unionArea_le_of_sum_le _ _ ?_
    simp only [List.map_cons, List.map_nil, List.sum_cons, List.sum_nil,
      Nat.add_zero]
    push_cast [Int.toNat_of_nonneg hfw, Int.toNat_of_nonneg hg0]
    have h1 : pyint w ≤ sw := by
      rw [pyint_of_nonneg hw0]
      calc ⌊w⌋ ≤ ⌊(sw : ℚ)⌋ := Int.floor_le_floor hwle
      _ = sw := Int.floor_intCast sw
    calc (pyint w) * hgt ≤ sw * hgt :=
          mul_le_mul_of_nonneg_right h1 hg0
      _ ≤ sw * sh := by
          refine mul_le_mul_of_nonneg_left hgle ?_
          have : (0 : ℚ) ≤ (sw : ℚ) := le_trans (by positivity) hwle
          exact_mod_cast this

theorem pair_rect_bounds (lx rx lw rw lh rh : ℚ) (sw sh : ℤ)
    (hlw : 0 ≤ lw) (hrw : 0 ≤ rw) (hlh : 0 ≤ lh) (hrh : 0 ≤ rh)
    (hsum : lw + rw ≤ (sw : ℚ)) (hlh2 : lh ≤ (sh : ℚ)) (hrh2 : rh ≤ (sh : ℚ)) :
    (∀ r ∈ [PRect.mk (pyint lx) 0 (pyint lw) (pyint lh),
            PRect.mk (pyint rx) 0 (pyint rw) (pyint rh)],
      0 ≤ r.w ∧ 0 ≤ r.h) ∧
    (unionArea [PRect.mk (pyint lx) 0 (pyint lw) (pyint lh),
                PRect.mk (pyint rx) 0 (pyint rw) (pyint rh)] : ℤ) ≤ sw * sh := by
  have f1 := pyint_nonneg hlw
  have f2 := pyint_nonneg hrw
  have f3 := pyint_nonneg hlh
  have f4 := pyint_nonneg hrh
  constructor
  · intro r hr
    rcases List.mem_cons.mp hr with rfl | hr
    · exact ⟨f1, f3⟩
    · rw [List.mem_singleton] at hr
      subst hr
      exact ⟨f2, f4⟩
  · refine unionArea_le_of_sum_le _ _ ?_
    simp only [List.map_cons, List.map_nil, List.sum_cons, List.sum_nil,
      Nat.add_zero]
    push_cast [Int.toNat_of_nonneg f1, Int.toNat_of_nonneg f2,
      Int.toNat_of_nonneg f3, Int.toNat_of_nonneg f4]
    rw [pyint_of_nonneg hlw, pyint_of_nonneg hrw, pyint_of_nonneg hlh,
      pyint_of_nonneg hrh]
    have key : ((⌊lw⌋ : ℚ) * (⌊lh⌋ : ℚ)) + ((⌊rw⌋ : ℚ) * (⌊rh⌋ : ℚ)) ≤
        (sw : ℚ) * (sh : ℚ) := by
      have p1 : ((⌊lw⌋ : ℚ) * (⌊lh⌋ : ℚ)) ≤ lw * (sh : ℚ) :=
        mul_le_mul (Int.floor_le lw) (le_trans (Int.floor_le lh) hlh2)
          (by exact_mod_cast Int.floor_nonneg.mpr hlh) hlw
      have p2 : ((⌊rw⌋ : ℚ) * (⌊rh⌋ : ℚ)) ≤ rw * (sh : ℚ) :=
        mul_le_mul (Int.floor_le rw) (le_trans (Int.floor_le rh) hrh2)
          (by exact_mod_cast Int.floor_nonneg.mpr hrh) hrw
      have hsh0 : (0 : ℚ) ≤ (sh : ℚ) := le_trans hlh hlh2
      nlinarith [mul_le_mul_of_nonneg_right hsum hsh0]
    exact_mod_cast key

theorem triple_rect_bounds (x2 x3 lw cw rw : ℚ) (h1 h3 sw sh : ℤ)
    (hlw : 0 ≤ lw) (hcw : 0 ≤ cw) (hrw : 0 ≤ rw)
    (hh1 : 0 ≤ h1) (hh1b : h1 ≤ sh) (hh3 : 0 ≤ h3) (hh3b : h3 ≤ sh)
    (hsh : 0 ≤ sh) (hsum : lw + cw + rw ≤ (sw : ℚ)) :
    (∀ r ∈ [PRect.mk (pyint 0) (pyint 0) (pyint lw) h1,
            PRect.mk (pyint x2) 0 (pyint cw) sh,
            PRect.mk (pyint x3) 0 (pyint rw) h3],
      0 ≤ r.w ∧ 0 ≤ r.h) ∧
    (unionArea [PRect.mk (pyint 0) (pyint 0) (pyint lw) h1,
                PRect.mk (pyint x2) 0 (pyint cw) sh,
                PRect.mk (pyint x3) 0 (pyint rw) h3] : ℤ) ≤ sw * sh := by
  have f1 := pyint_nonneg hlw
  have f2 := pyint_nonneg hcw
  have f3 := pyint_nonneg hrw
  constructor
  · intro r hr
    rcases List.mem_cons.mp hr with rfl | hr
    · exact ⟨f1, hh1⟩
    · rcases List.mem_cons.mp hr with rfl | hr
      · exact ⟨f2, hsh⟩
      · rw [List.mem_singleton] at hr
        subst hr
        exact ⟨f3, hh3⟩
  · refine unionArea_le_of_sum_le _ _ ?_
    simp only [List.map_cons, List.map_nil, List.sum_cons, List.sum_nil,
      Nat.add_zero]
    push_cast [Int.toNat_of_nonneg f1, Int.toNat_of_nonneg f2,
      Int.toNat_of_nonneg f3, Int.toNat_of_nonneg hh1,
      Int.toNat_of_nonneg hh3, Int.toNat_of_nonneg hsh]
    rw [pyint_of_nonneg hlw, pyint_of_nonneg hcw, pyint_of_nonneg hrw]
    have key : ((⌊lw⌋ : ℚ) * (h1 : ℚ)) + ((⌊cw⌋ : ℚ) * (sh : ℚ)) +
        ((⌊rw⌋ : ℚ) * (h3 : ℚ)) ≤ (sw : ℚ) * (sh : ℚ) := by
      have c1 : (h1 : ℚ) ≤ (sh : ℚ) := by exact_mod_cast hh1b
      have c3 : (h3 : ℚ) ≤ (sh : ℚ) := by exact_mod_cast hh3b
      have d1 : (0 : ℚ) ≤ (h1 : ℚ) := by exact_mod_cast hh1
      have d3 : (0 : ℚ) ≤ (h3 : ℚ) := by exact_mod_cast hh3
      have hsh0 : (0 : ℚ) ≤ (sh : ℚ) := by exact_mod_cast hsh
      have p1 : ((⌊lw⌋ : ℚ) * (h1 : ℚ)) ≤ lw * (sh : ℚ) :=
        mul_le_mul (Int.floor_le lw) c1 d1 hlw
      have p2 : ((⌊cw⌋ : ℚ) * (sh : ℚ)) ≤ cw * (sh : ℚ) :=
        mul_le_mul_of_nonneg_right (Int.floor_le cw) hsh0
      have p3 : ((⌊rw⌋ : ℚ) * (h3 : ℚ)) ≤ rw * (sh : ℚ) :=
        mul_le_mul (Int.floor_le rw) c3 d3 hrw
      nlinarith [mul_le_mul_of_nonneg_right hsum hsh0]
    have key2 : ⌊lw⌋ * h1 + ⌊cw⌋ * sh + ⌊rw⌋ * h3 ≤ sw * sh := by
      exact_mod_cast key
    linarith [key2]

theorem quad_rect_bounds (x1 y1 x2 y2 x3 y3 x4 y4 w1 h1 w2 h2 w3 h3 w4 h4 : ℚ)
    (sw sh : ℤ)
    (q1 : 0 ≤ w1) (q2 : 0 ≤ h1) (q3 : 0 ≤ w2) (q4 : 0 ≤ h2)
    (q5 : 0 ≤ w3) (q6 : 0 ≤ h3) (q7 : 0 ≤ w4) (q8 : 0 ≤ h4)
    (hsum : w1 * h1 + w2 * h2 + w3 * h3 + w4 * h4 ≤ (sw : ℚ) * (sh : ℚ)) :
    (∀ r ∈ [PRect.mk (pyint x1) (pyint y1) (pyint w1) (pyint h1),
            PRect.mk (pyint x2) (pyint y2) (pyint w2) (pyint h2),
            PRect.mk (pyint x3) (pyint y3) (pyint w3) (pyint h3),
            PRect.mk (pyint x4) (pyint y4) (pyint w4) (pyint h4)],
      0 ≤ r.w ∧ 0 ≤ r.h) ∧
    (unionArea [PRect.mk (pyint x1) (pyint y1) (pyint w1) (pyint h1),
                PRect.mk (pyint x2) (pyint y2) (pyint w2) (pyint h2),
                PRect.mk (pyint x3) (pyint y3) (pyint w3) (pyint h3),
                PRect.mk (pyint x4) (pyint y4) (pyint w4) (pyint h4)] : ℤ) ≤
      sw * sh := by
  have f1 := pyint_nonneg q1
  have f2 := pyint_nonneg q2
  have f3 := pyint_nonneg q3
  have f4 := pyint_nonneg q4
  have f5 := pyint_nonneg q5
  have f6 := pyint_nonneg q6
  have f7 := pyint_nonneg q7
  have f8 := pyint_nonneg q8
  constructor
  · intro r hr
    rcases List.mem_cons.mp hr with rfl | hr
    · exact ⟨f1, f2⟩
    · rcases List.mem_cons.mp hr with rfl | hr
      · exact ⟨f3, f4⟩
      · rcases List.mem_cons.mp hr with rfl | hr
        · exact ⟨f5, f6⟩
        · rw [List.mem_singleton] at hr
          subst hr
          exact ⟨f7, f8⟩
  · refine unionArea_le_of_sum_le _ _ ?_
    simp only [List.map_cons, List.map_nil, List.sum_cons, List.sum_nil,
      Nat.add_zero]
    push_cast [Int.toNat_of_nonneg f1, Int.toNat_of_nonneg f2,
      Int.toNat_of_nonneg f3, Int.toNat_of_nonneg f4,
      Int.toNat_of_nonneg f5, Int.toNat_of_nonneg f6,
      Int.toNat_of_nonneg f7, Int.toNat_of_nonneg f8]
    rw [pyint_of_nonneg q1, pyint_of_nonneg q2, pyint_of_nonneg q3,
      pyint_of_nonneg q4, pyint_of_nonneg q5, pyint_of_nonneg q6,
      pyint_of_nonneg q7, pyint_of_nonneg q8]
    have p1 := floor_mul_floor_le q1 q2
    have p2 := floor_mul_floor_le q3 q4
    have p3 := floor_mul_floor_le q5 q6
    have p4 := floor_mul_floor_le q7 q8
    have key : ((⌊w1⌋ : ℚ) * (⌊h1⌋ : ℚ)) + ((⌊w2⌋ : ℚ) * (⌊h2⌋ : ℚ)) +
        ((⌊w3⌋ : ℚ) * (⌊h3⌋ : ℚ)) + ((⌊w4⌋ : ℚ) * (⌊h4⌋ : ℚ)) ≤
        (sw : ℚ) * (sh : ℚ) := by linarith
    have key2 : ⌊w1⌋ * ⌊h1⌋ + ⌊w2⌋ * ⌊h2⌋ + ⌊w3⌋ * ⌊h3⌋ + ⌊w4⌋ * ⌊h4⌋ ≤
        sw * sh := by exact_mod_cast key
    linarith [key2]

/-- `0 ≤ screen_height * ratio ≤ screen_width` for a preset ratio at most
32:9 on a screen at least as wide as 32:9. -/
theorem narrow_bounds (num den sw sh : ℤ)
    (hden : 0 < den) (hnum : 0 ≤ num) (hr : num * 9 ≤ 32 * den)
    (hh : 48 ≤ sh) (hw : 32 * sh ≤ 9 * sw) :
    0 ≤ (sh : ℚ) * ((num : ℚ) / (den : ℚ)) ∧
    (sh : ℚ) * ((num : ℚ) / (den : ℚ)) ≤ (sw : ℚ) := by
  have hdenQ : (0 : ℚ) < (den : ℚ) := by exact_mod_cast hden
  have hshZ : (0 : ℤ) ≤ sh := by linarith
  have hshQ : (0 : ℚ) ≤ (sh : ℚ) := by exact_mod_cast hshZ
  have hnumQ : (0 : ℚ) ≤ (num : ℚ) := by exact_mod_cast hnum
  constructor
  · exact mul_nonneg hshQ (div_nonneg hnumQ (le_of_lt hdenQ))
  · have e : (sh : ℚ) * ((num : ℚ) / (den : ℚ)) =
        ((sh * num : ℤ) : ℚ) / ((den : ℤ) : ℚ) := by
      push_cast
      ring
    rw [e, div_le_iff₀ hdenQ]
    have hZ : sh * num ≤ sw * den := by
      nlinarith [mul_le_mul_of_nonneg_left hr hshZ,
        mul_le_mul_of_nonneg_right hw (le_of_lt hden)]
    exact_mod_cast hZ

theorem clampWeight_mem (w : ℚ) : 0 ≤ clampWeight w ∧ clampWeight w ≤ 1 := by
  unfold clampWeight
  split_ifs with h
  · exact h
  · norm_num

theorem auto1_bounds (num den : ℤ) (side : String) (sw sh : ℤ)
    (hden : 0 < den) (hnum : 0 ≤ num) (hr : num * 9 ≤ 32 * den)
    (hh : 48 ≤ sh) (hw : 32 * sh ≤ 9 * sw) :
    (∀ r ∈ auto1 num den side sw sh, 0 ≤ r.w ∧ 0 ≤ r.h) ∧
    (unionArea (auto1 num den side sw sh) : ℤ) ≤ sw * sh := by
  obtain ⟨hn0, hn1⟩ := narrow_bounds num den sw sh hden hnum hr hh hw
  exact single_rect_bounds _ _ _ sw sh hn0 (by linarith) hn1 le_rfl

theorem auto2_bounds (num den : ℤ) (side : String) (sw sh : ℤ)
    (hden : 0 < den) (hnum : 0 ≤ num) (hr : num * 9 ≤ 32 * den)
    (hh : 48 ≤ sh) (hw : 32 * sh ≤ 9 * sw) :
    (∀ r ∈ auto2 num den side sw sh, 0 ≤ r.w ∧ 0 ≤ r.h) ∧
    (unionArea (auto2 num den side sw sh) : ℤ) ≤ sw * sh := by
  obtain ⟨hn0, hn1⟩ := narrow_bounds num den sw sh hden hnum hr hh hw
  have hswZ : (0 : ℤ) < sw := by nlinarith
  have hswQ : (0 : ℚ) ≤ (sw : ℚ) := by exact_mod_cast le_of_lt hswZ
  have hhQ : (48 : ℚ) ≤ (sh : ℚ) := by exact_mod_cast hh
  have husZ : usableHeight sh = sh - 48 := by
    norm_num [usableHeight, TASKBAR_HEIGHT]
  have hus0 : (0 : ℚ) ≤ ((usableHeight sh : ℤ) : ℚ) := by
    rw [husZ]
    push_cast
    linarith
  have hus1 : ((usableHeight sh : ℤ) : ℚ) ≤ (sh : ℚ) := by
    rw [husZ]
    push_cast
    linarith
  refine pair_rect_bounds _ _ _ _ _ _ sw sh ?_ ?_ ?_ ?_ ?_ ?_ ?_ <;>
    split_ifs <;> linarith

theorem auto3_bounds (num den : ℤ) (w1 : ℚ) (sw sh : ℤ)
    (hden : 0 < den) (hnum : 0 ≤ num) (hr : num * 9 ≤ 32 * den)
    (hh : 48 ≤ sh) (hw : 32 * sh ≤ 9 * sw) :
    (∀ r ∈ auto3 num den w1 sw sh, 0 ≤ r.w ∧ 0 ≤ r.h) ∧
    (unionArea (auto3 num den w1 sw sh) : ℤ) ≤ sw * sh := by
  obtain ⟨hn0, hn1⟩ := narrow_bounds num den sw sh hden hnum hr hh hw
  obtain ⟨hc0, hc1⟩ := clampWeight_mem w1
  have husZ : usableHeight sh = sh - 48 := by
    norm_num [usableHeight, TASKBAR_HEIGHT]
  refine triple_rect_bounds _ _ _ _ _ (usableHeight sh) (usableHeight sh)
    sw sh ?_ ?_ ?_ ?_ ?_ ?_ ?_ ?_ ?_
  · exact mul_nonneg (by linarith) hc0
  · exact hn0
  · exact mul_nonneg (by linarith) (by linarith)
  · rw [husZ]
    linarith
  · rw [husZ]
    linarith
  · rw [husZ]
    linarith
  · rw [husZ]
    linarith
  · linarith
  · ring_nf
    nlinarith [hn0, hn1]

/-- C4 (counterexample): on an ordinary positive-size screen (1920 x 1080)
the first two-window preset `(21, 9, "R")` produces a rectangle of
negative width `-600`, so the claim fails for "every positive screen
width/height". -/
theorem C4_counterexample :
    (0 : ℤ) < 1920 ∧ (0 : ℤ) < 1080 ∧
    ∃ r ∈ auto_position 2 0 1920 1080, r.w < 0 := by
  have hlist : auto_position 2 0 1920 1080 =
      [⟨0, 0, -600, 1080⟩, ⟨-600, 0, 2520, 1080⟩] := by
    show auto2 21 9 "R" 1920 1080 = _
    have hRC : ¬ ("R" = "CR") := by decide
    simp only [auto2, if_neg hRC]
    norm_num [pyint]
  refine ⟨by norm_num, by norm_num, ⟨0, 0, -600, 1080⟩, ?_, by norm_num⟩
  rw [hlist]
  exact List.mem_cons_self _ _

/-- C4 (amended): for every window count 1-4, every preset index for that
count, and every screen at least 48 pixels tall and at least as wide as
the widest preset ratio 32:9 (`32 * sh ≤ 9 * sw`), `auto_position`
produces rectangles with non-negative width and height whose union area
does not exceed the screen area `sw * sh`. -/
theorem C4_layout_geometry (n idx : ℕ) (sw sh : ℤ)
    (hn : n ∈ [1, 2, 3, 4]) (hidx : idx < presetCount n)
    (hh : 48 ≤ sh) (hw : 32 * sh ≤ 9 * sw) :
    (∀ r ∈ auto_position n idx sw sh, 0 ≤ r.w ∧ 0 ≤ r.h) ∧
    (unionArea (auto_position n idx sw sh) : ℤ) ≤ sw * sh := by
  fin_cases hn
  · have h10 : idx < 10 := hidx
    interval_cases idx <;>
      exact auto1_bounds _ _ _ sw sh (by decide) (by decide) (by decide) hh hw
  · have h12 : idx < 12 := hidx
    interval_cases idx <;>
      exact auto2_bounds _ _ _ sw sh (by decide) (by decide) (by decide) hh hw
  · have h12 : idx < 12 := hidx
    interval_cases idx <;>
      exact auto3_bounds _ _ _ sw sh (by decide) (by decide) (by decide) hh hw
  · have h4 : idx < 4 := hidx
    have hswZ : (0 : ℤ) < sw := by nlinarith
    have hswQ : (0 : ℚ) ≤ (sw : ℚ) := by exact_mod_cast le_of_lt hswZ
    have hhQ : (48 : ℚ) ≤ (sh : ℚ) := by exact_mod_cast hh
    have husZ : usableHeight sh = sh - 48 := by
      norm_num [usableHeight, TASKBAR_HEIGHT]
    have hus0 : (0 : ℚ) ≤ ((usableHeight sh : ℤ) : ℚ) := by
      rw [husZ]
      push_cast
      linarith
    have hus1 : ((usableHeight sh : ℤ) : ℚ) ≤ (sh : ℚ) := by
      rw [husZ]
      push_cast
      linarith
    interval_cases idx <;>
      refine quad_rect_bounds _ _ _ _ _ _ _ _ _ _ _ _ _ _ _ _ sw sh
        ?_ ?_ ?_ ?_ ?_ ?_ ?_ ?_ ?_ <;>
      linarith [hswQ, hus0, hus1, mul_le_mul_of_nonneg_left hus1 hswQ]

theorem C4_layout_geometry_witness :
    ((1 : ℕ) ∈ [1, 2, 3, 4] ∧ (0 : ℕ) < presetCount 1 ∧
      (48 : ℤ) ≤ 1080 ∧ (32 : ℤ) * 1080 ≤ 9 * 5120) ∧
    ((∀ r ∈ auto_position 1 0 5120 1080, 0 ≤ r.w ∧ 0 ≤ r.h) ∧
      (unionArea (auto_position 1 0 5120 1080) : ℤ) ≤ 5120 * 1080) :=
  ⟨⟨by decide, by decide, by decide, by decide⟩,
    C4_layout_geometry 1 0 5120 1080 (by decide) (by decide) (by decide)
      (by decide)⟩

end UWP
